import Mathlib

/-!
# create-sendgrid-key.go: a verification development

The program is one procedure, `main`, that validates its inputs, marshals
an `APIKeyRequest`, posts it once and branches on the response.  `main` is
embedded as a pure function of everything it reads (argument vector,
environment, the result of the one transport call) to everything it
produces (exit code, the writes to standard output and standard error, the
requests handed to the transport).

`main` calls into Go's `encoding/json`, `fmt` and the SendGrid client.
Those are not part of the repository; the parts of their documented
behaviour that `main` depends on are modelled in the first half of the file:

* `checkValid`/decoder of `encoding/json` as a character automaton
  (`Scanner`), following `scanner.go` state by state and building the value
  on the way;
* `Unmarshal` into the `CreateAPIKeyResponse` struct (`jsonUnmarshal`);
* `Marshal` of an `APIKeyRequest` (`jsonMarshal`), with the UTF-8 decoding
  it applies to the strings it writes (`decodeRune`).

What "well-formed JSON" means does not come from the scanner: it is the
grammar of RFC 8259, given as the data type `JSONText`. That the scanner
accepts every text of the grammar nested no deeper than `maxNestingDepth`,
and reads its value, is a theorem (`parseJSON_of_text`).

A Go string is a sequence of bytes. The argument vector is modelled that
way (`GoString`), because `json.Marshal` treats bytes that are not UTF-8 in
its own way. The environment value, the transport's texts and the response
body are modelled by Lean strings, that is, as well-formed Unicode text.
-/

namespace CreateSendgridKey

/-! ## JSON values -/

/-- A parsed JSON text. Numbers keep their literal. -/
inductive JSONValue where
  | null
  | bool (b : Bool)
  | number (literal : String)
  | string (s : String)
  | array (elems : List JSONValue)
  | object (members : List (String × JSONValue))

/-- The name `encoding/json` gives to the kind of a value in an
`UnmarshalTypeError`. -/
def JSONValue.kind : JSONValue → String
  | .null => "null"
  | .bool _ => "bool"
  | .number _ => "number"
  | .string _ => "string"
  | .array _ => "array"
  | .object _ => "object"

/-! ## The scanner of `encoding/json` -/

/-- One entry of the scanner's `parseState` stack, with the part of the
enclosing container that has been read so far (most recent first). -/
inductive Frame where
  /-- Go's `parseObjectKey`: inside an object, reading a key. -/
  | objectKey (done : List (String × JSONValue))
  /-- Go's `parseObjectValue`: inside an object, reading the value of `key`. -/
  | objectValue (done : List (String × JSONValue)) (key : String)
  /-- Go's `parseArrayValue`: inside an array, reading an element. -/
  | arrayValue (done : List JSONValue)

/-- The scanner's `step` function, as data. String states carry the
characters decoded so far (most recent first) and a `\u` escape that was a
UTF-16 surrogate and still waits for its partner; number states carry the
literal read so far (most recent first). -/
inductive Step where
  | beginValueOrEmpty
  | beginValue
  | beginStringOrEmpty
  | beginString
  | endValue (v : JSONValue)
  | inString (acc : List Char) (pending : Option Nat)
  | inStringEsc (acc : List Char) (pending : Option Nat)
  | inStringEscU (acc : List Char) (pending : Option Nat) (digits : Nat) (value : Nat)
  | neg (lit : List Char)
  | one (lit : List Char)
  | zero (lit : List Char)
  | dot (lit : List Char)
  | dot0 (lit : List Char)
  | e (lit : List Char)
  | eSign (lit : List Char)
  | e0 (lit : List Char)
  | literal (rest : List Char) (v : JSONValue)

/-- The scanner: current step and the stack of open containers. -/
structure Scanner where
  step : Step
  parseState : List Frame

/-- Go's `maxNestingDepth`. -/
def maxNestingDepth : Nat := 10000

/-- Go's `isSpace`. -/
def isSpace (c : Char) : Bool :=
  c = ' ' || c = '\t' || c = '\r' || c = '\n'

/-- A decimal digit. -/
def isDigit (c : Char) : Bool := '0' ≤ c && c ≤ '9'

/-- Value of a hexadecimal digit, either case. -/
def hexVal (c : Char) : Option Nat :=
  if '0' ≤ c ∧ c ≤ '9' then some (c.toNat - 48)
  else if 'a' ≤ c ∧ c ≤ 'f' then some (c.toNat - 87)
  else if 'A' ≤ c ∧ c ≤ 'F' then some (c.toNat - 55)
  else none

/-- Go's `utf16.IsSurrogate`. -/
def isSurrogate (r : Nat) : Bool := 0xD800 ≤ r && r < 0xE000

/-- Go's `unicode.ReplacementChar`. -/
def replacementChar : Char := Char.ofNat 0xFFFD

/-- Emit the replacement character for a surrogate escape that found no
partner (`unquote`: "Invalid surrogate; fall back to replacement rune"). -/
def flush (acc : List Char) : Option Nat → List Char
  | none => acc
  | some _ => replacementChar :: acc

/-- A `\uXXXX` escape with value `r` has been read (`unquote`, case `'u'`).
A surrogate waits for the next escape; a high surrogate followed by a low
one is one character (`utf16.DecodeRune`); any other surrogate becomes the
replacement character. -/
def endEscU (acc : List Char) (pending : Option Nat) (r : Nat) : Step :=
  match pending with
  | some hi =>
    if 0xD800 ≤ hi ∧ hi < 0xDC00 ∧ 0xDC00 ≤ r ∧ r < 0xE000 then
      .inString (Char.ofNat ((hi - 0xD800) * 0x400 + (r - 0xDC00) + 0x10000) :: acc) none
    else if isSurrogate r then .inString (replacementChar :: acc) (some r)
    else .inString (Char.ofNat r :: replacementChar :: acc) none
  | none =>
    if isSurrogate r then .inString acc (some r)
    else .inString (Char.ofNat r :: acc) none

/-- Go's `pushParseState`: open a container, unless nesting is too deep. -/
def pushParseState (ps : List Frame) (f : Frame) (next : Step) : Option Scanner :=
  if ps.length + 1 ≤ maxNestingDepth then some ⟨next, f :: ps⟩ else none

/-- Go's `stateBeginValue` (after white space has been skipped). -/
def stateBeginValue (ps : List Frame) (c : Char) : Option Scanner :=
  if c = '{' then pushParseState ps (.objectKey []) .beginStringOrEmpty
  else if c = '[' then pushParseState ps (.arrayValue []) .beginValueOrEmpty
  else if c = '"' then some ⟨.inString [] none, ps⟩
  else if c = '-' then some ⟨.neg [c], ps⟩
  else if c = '0' then some ⟨.zero [c], ps⟩
  else if c = 't' then some ⟨.literal ['r', 'u', 'e'] (.bool true), ps⟩
  else if c = 'f' then some ⟨.literal ['a', 'l', 's', 'e'] (.bool false), ps⟩
  else if c = 'n' then some ⟨.literal ['u', 'l', 'l'] .null, ps⟩
  else if '1' ≤ c ∧ c ≤ '9' then some ⟨.one [c], ps⟩
  else none

/-- Go's `stateEndValue`, with the value `v` that has just been completed. -/
def stateEndValue (v : JSONValue) (ps : List Frame) (c : Char) : Option Scanner :=
  match ps with
  | [] => if isSpace c then some ⟨.endValue v, []⟩ else none
  | f :: rest =>
    if isSpace c then some ⟨.endValue v, ps⟩
    else
      match f with
      | .objectKey done =>
        match v with
        | .string key => if c = ':' then some ⟨.beginValue, .objectValue done key :: rest⟩ else none
        | _ => none
      | .objectValue done key =>
        if c = ',' then some ⟨.beginString, .objectKey ((key, v) :: done) :: rest⟩
        else if c = '}' then some ⟨.endValue (.object ((key, v) :: done).reverse), rest⟩
        else none
      | .arrayValue done =>
        if c = ',' then some ⟨.beginValue, .arrayValue (v :: done) :: rest⟩
        else if c = ']' then some ⟨.endValue (.array (v :: done).reverse), rest⟩
        else none

/-- A number literal is complete: Go's number states hand the character
that ended it to `stateEndValue`. -/
def endNumber (lit : List Char) (ps : List Frame) (c : Char) : Option Scanner :=
  stateEndValue (.number (String.mk lit.reverse)) ps c

/-- One step of the scanner on character `c`; `none` is a syntax error. -/
def Scanner.feed (s : Scanner) (c : Char) : Option Scanner :=
  let ps := s.parseState
  match s.step with
  | .beginValueOrEmpty =>
    if isSpace c then some s
    else if c = ']' then
      match ps with
      | .arrayValue done :: rest => some ⟨.endValue (.array done.reverse), rest⟩
      | _ => none
    else stateBeginValue ps c
  | .beginValue => if isSpace c then some s else stateBeginValue ps c
  | .beginStringOrEmpty =>
    if isSpace c then some s
    else if c = '}' then
      match ps with
      | .objectKey done :: rest => some ⟨.endValue (.object done.reverse), rest⟩
      | _ => none
    else if c = '"' then some ⟨.inString [] none, ps⟩
    else none
  | .beginString =>
    if isSpace c then some s
    else if c = '"' then some ⟨.inString [] none, ps⟩
    else none
  | .endValue v => stateEndValue v ps c
  | .inString acc pending =>
    if c = '"' then some ⟨.endValue (.string (String.mk (flush acc pending).reverse)), ps⟩
    else if c = '\\' then some ⟨.inStringEsc acc pending, ps⟩
    else if c.toNat < 0x20 then none
    else some ⟨.inString (c :: flush acc pending) none, ps⟩
  | .inStringEsc acc pending =>
    if c = 'b' then some ⟨.inString ('\x08' :: flush acc pending) none, ps⟩
    else if c = 'f' then some ⟨.inString ('\x0c' :: flush acc pending) none, ps⟩
    else if c = 'n' then some ⟨.inString ('\n' :: flush acc pending) none, ps⟩
    else if c = 'r' then some ⟨.inString ('\r' :: flush acc pending) none, ps⟩
    else if c = 't' then some ⟨.inString ('\t' :: flush acc pending) none, ps⟩
    else if c = '\\' ∨ c = '/' ∨ c = '"' then some ⟨.inString (c :: flush acc pending) none, ps⟩
    else if c = 'u' then some ⟨.inStringEscU acc pending 0 0, ps⟩
    else none
  | .inStringEscU acc pending digits value =>
    match hexVal c with
    | none => none
    | some d =>
      if digits < 3 then some ⟨.inStringEscU acc pending (digits + 1) (value * 16 + d), ps⟩
      else some ⟨endEscU acc pending (value * 16 + d), ps⟩
  | .neg lit =>
    if c = '0' then some ⟨.zero (c :: lit), ps⟩
    else if '1' ≤ c ∧ c ≤ '9' then some ⟨.one (c :: lit), ps⟩
    else none
  | .one lit =>
    if isDigit c then some ⟨.one (c :: lit), ps⟩
    else if c = '.' then some ⟨.dot (c :: lit), ps⟩
    else if c = 'e' ∨ c = 'E' then some ⟨.e (c :: lit), ps⟩
    else endNumber lit ps c
  | .zero lit =>
    if c = '.' then some ⟨.dot (c :: lit), ps⟩
    else if c = 'e' ∨ c = 'E' then some ⟨.e (c :: lit), ps⟩
    else endNumber lit ps c
  | .dot lit => if isDigit c then some ⟨.dot0 (c :: lit), ps⟩ else none
  | .dot0 lit =>
    if isDigit c then some ⟨.dot0 (c :: lit), ps⟩
    else if c = 'e' ∨ c = 'E' then some ⟨.e (c :: lit), ps⟩
    else endNumber lit ps c
  | .e lit =>
    if c = '+' ∨ c = '-' then some ⟨.eSign (c :: lit), ps⟩
    else if isDigit c then some ⟨.e0 (c :: lit), ps⟩
    else none
  | .eSign lit => if isDigit c then some ⟨.e0 (c :: lit), ps⟩ else none
  | .e0 lit => if isDigit c then some ⟨.e0 (c :: lit), ps⟩ else endNumber lit ps c
  | .literal rest v =>
    match rest with
    | [] => none
    | x :: more =>
      if c = x then
        (if more = [] then some ⟨.endValue v, ps⟩ else some ⟨.literal more v, ps⟩)
      else none

/-- Run the scanner over the characters of a text. -/
def Scanner.run (s : Scanner) : List Char → Option Scanner
  | [] => some s
  | c :: cs =>
    match s.feed c with
    | none => none
    | some s1 => s1.run cs

/-- Go's scanner `reset`: expecting one top-level value. -/
def Scanner.init : Scanner := ⟨.beginValue, []⟩

/-- Go's scanner `eof`: the text is a JSON value when, after a final white
space, the scanner has completed a top-level value. -/
def Scanner.eof (s : Scanner) : Option JSONValue :=
  match s.feed ' ' with
  | some ⟨.endValue v, []⟩ => some v
  | _ => none

/-- The JSON value a text denotes, or `none` when `checkValid` rejects it. -/
def parseJSON (data : String) : Option JSONValue :=
  match Scanner.init.run data.toList with
  | none => none
  | some s => s.eof

/-! ## `json.Unmarshal` into `CreateAPIKeyResponse` -/

/-- CreateAPIKeyResponse defines the structure to parse the successful API
key creation response. -/
structure CreateAPIKeyResponse where
  APIKey : String
  Name : String
  ApiKeyID : String
  deriving DecidableEq

/-- The three fields of `CreateAPIKeyResponse`, in declaration order. -/
inductive Field where
  | APIKey
  | Name
  | ApiKeyID
  deriving DecidableEq

/-- The `json:"..."` tag of a field. -/
def Field.tag : Field → String
  | .APIKey => "api_key"
  | .Name => "name"
  | .ApiKeyID => "api_key_id"

/-- Assign a string to a field. -/
def CreateAPIKeyResponse.set (r : CreateAPIKeyResponse) (f : Field) (s : String) :
    CreateAPIKeyResponse :=
  match f with
  | .APIKey => { r with APIKey := s }
  | .Name => { r with Name := s }
  | .ApiKeyID => { r with ApiKeyID := s }

/-- Go's `foldRune` (the smallest rune of a simple case-folding orbit), on
the orbits that contain an ASCII character: a lower-case ASCII letter folds
to its upper-case letter, the Kelvin sign U+212A folds to `K` and the long s
U+017F to `S`. No other character folds to an ASCII character, so on every
other character the identity decides equality with a folded ASCII tag the
same way. -/
def foldRune (c : Char) : Char :=
  if 'a' ≤ c ∧ c ≤ 'z' then Char.ofNat (c.toNat - 32)
  else if c = Char.ofNat 0x212A then 'K'
  else if c = Char.ofNat 0x017F then 'S'
  else c

/-- Go's `foldName`. -/
def foldName (s : String) : List Char := s.toList.map foldRune

/-- The struct fields, in declaration order. -/
def fields : List Field := [.APIKey, .Name, .ApiKeyID]

/-- The field an object key is decoded into (`decode.go`, `object`): "an
exact match but also accepting a case-insensitive match". -/
def findField (key : String) : Option Field :=
  match fields.find? (fun f => f.tag = key) with
  | some f => some f
  | none => fields.find? (fun f => foldName f.tag = foldName key)

/-- The errors `json.Unmarshal` returns. -/
inductive UnmarshalError where
  /-- A `*json.SyntaxError`: the text is not JSON. -/
  | syntaxError
  /-- A `*json.UnmarshalTypeError`: a JSON value of kind `value` met the Go
  type of `field` (the empty string for the struct itself). -/
  | typeError (value : String) (field : String)
  deriving DecidableEq

/-- State of the decoder: the struct being filled and Go's `savedError`. -/
structure Decoder where
  resp : CreateAPIKeyResponse
  savedError : Option UnmarshalError

/-- Go's `saveError`: keeps the earliest error. -/
def Decoder.saveError (d : Decoder) (err : UnmarshalError) : Decoder :=
  match d.savedError with
  | none => { d with savedError := some err }
  | some _ => d

/-- Decode one `key: value` member of the top-level object. A key that
names no field is skipped. A string is stored in the field; `null` "has no
effect on the value and produces no error"; any other value is a type
error, and decoding goes on. -/
def Decoder.member (d : Decoder) (m : String × JSONValue) : Decoder :=
  match findField m.1 with
  | none => d
  | some f =>
    match m.2 with
    | .string s => { d with resp := d.resp.set f s }
    | .null => d
    | v => d.saveError (.typeError v.kind f.tag)

/-- The zero value of the struct, no error. -/
def Decoder.init : Decoder := ⟨⟨"", "", ""⟩, none⟩

/-- Decode a JSON value into the struct: an object is decoded member by
member, `null` leaves the struct alone, and anything else is a type error. -/
def Decoder.value (d : Decoder) : JSONValue → Decoder
  | .object members => members.foldl Decoder.member d
  | .null => d
  | v => d.saveError (.typeError v.kind "")

/-- The call `json.Unmarshal([]byte(data), &apiKeyResp)` on a zero
`apiKeyResp`: the struct on success, the error otherwise. -/
def jsonUnmarshal (data : String) : Except UnmarshalError CreateAPIKeyResponse :=
  match parseJSON data with
  | none => .error .syntaxError
  | some v =>
    let d := Decoder.init.value v
    match d.savedError with
    | some err => .error err
    | none => .ok d.resp

/-! ## Go strings -/

/-- A byte. -/
abbrev Byte := Fin 256

/-- A Go string: any sequence of bytes, UTF-8 or not. -/
abbrev GoString := List Byte

/-- The byte with a given value. -/
def byte (n : Nat) : Byte := ⟨n % 256, Nat.mod_lt _ (by decide)⟩

/-- Go's `utf8.AppendRune`: the UTF-8 encoding of one character. -/
def encodeRune (c : Char) : List Byte :=
  if c.toNat < 0x80 then [byte c.toNat]
  else if c.toNat < 0x800 then [byte (0xC0 + c.toNat / 64), byte (0x80 + c.toNat % 64)]
  else if c.toNat < 0x10000 then
    [byte (0xE0 + c.toNat / 4096), byte (0x80 + c.toNat / 64 % 64), byte (0x80 + c.toNat % 64)]
  else
    [byte (0xF0 + c.toNat / 262144), byte (0x80 + c.toNat / 4096 % 64),
     byte (0x80 + c.toNat / 64 % 64), byte (0x80 + c.toNat % 64)]

/-- The UTF-8 encoding of a sequence of characters. -/
def utf8Chars : List Char → List Byte
  | [] => []
  | c :: cs => encodeRune c ++ utf8Chars cs

/-- The Go string that holds a text: its UTF-8 encoding. String literals of
the source are held this way. -/
def utf8 (s : String) : GoString := utf8Chars s.toList

/-- A UTF-8 continuation byte (`locb` to `hicb`). -/
def isCont (b : Byte) : Bool := 0x80 ≤ b.val && b.val ≤ 0xBF

/-- Go's `utf8.DecodeRuneInString`: the character at the start of the bytes
and the number of bytes it takes; `(none, 1)` is `(RuneError, 1)`, a byte
that starts no valid sequence (a stray or missing continuation byte, an
overlong form, a surrogate, a value above U+10FFFF). -/
def decodeRune : List Byte → Option Char × Nat
  | [] => (none, 0)
  | b0 :: rest =>
    if b0.val < 0x80 then (some (Char.ofNat b0.val), 1)
    else if 0xC2 ≤ b0.val ∧ b0.val ≤ 0xDF then
      match rest with
      | b1 :: _ =>
        if isCont b1 then (some (Char.ofNat ((b0.val - 0xC0) * 64 + (b1.val - 0x80))), 2)
        else (none, 1)
      | _ => (none, 1)
    else if 0xE0 ≤ b0.val ∧ b0.val ≤ 0xEF then
      match rest with
      | b1 :: b2 :: _ =>
        if (if b0.val = 0xE0 then 0xA0 else 0x80) ≤ b1.val ∧
            b1.val ≤ (if b0.val = 0xED then 0x9F else 0xBF) ∧ isCont b2 then
          (some (Char.ofNat ((b0.val - 0xE0) * 4096 + (b1.val - 0x80) * 64 + (b2.val - 0x80))), 3)
        else (none, 1)
      | _ => (none, 1)
    else if 0xF0 ≤ b0.val ∧ b0.val ≤ 0xF4 then
      match rest with
      | b1 :: b2 :: b3 :: _ =>
        if (if b0.val = 0xF0 then 0x90 else 0x80) ≤ b1.val ∧
            b1.val ≤ (if b0.val = 0xF4 then 0x8F else 0xBF) ∧ isCont b2 ∧ isCont b3 then
          (some (Char.ofNat ((b0.val - 0xF0) * 262144 + (b1.val - 0x80) * 4096 +
            (b2.val - 0x80) * 64 + (b3.val - 0x80))), 4)
        else (none, 1)
      | _ => (none, 1)
    else (none, 1)

/-- The loop `for i < len(src)` of `appendString`, `i += size`: decode at
the current byte, then skip the bytes the character took. -/
def runesFrom (skip : Nat) : List Byte → List (Option Char)
  | [] => []
  | b :: rest =>
    match skip with
    | k + 1 => runesFrom k rest
    | 0 => (decodeRune (b :: rest)).1 :: runesFrom ((decodeRune (b :: rest)).2 - 1) rest

/-- A Go string as `appendString` walks it: a character for each valid
UTF-8 sequence, `none` for each byte that belongs to none. -/
def runes (s : GoString) : List (Option Char) := runesFrom 0 s

/-- The text a Go string stands for once `Marshal` has written it: each
valid UTF-8 sequence is its character, each other byte is U+FFFD. -/
def textOf (s : GoString) : String :=
  String.mk ((runes s).map (fun r => r.getD (Char.ofNat 0xFFFD)))

/-! ## `json.Marshal` of `APIKeyRequest` -/

/-- APIKeyRequest defines the structure for the API key creation request
payload. -/
structure APIKeyRequest where
  Name : GoString
  Scopes : List GoString
  deriving DecidableEq

/-- Go's `hex` table. -/
def hexDigit (n : Nat) : Char := "0123456789abcdef".toList.getD n '0'

/-- Go's `htmlSafeSet`: the ASCII characters `Marshal` copies unchanged. -/
def htmlSafe (c : Char) : Bool :=
  0x20 ≤ c.toNat && c.toNat < 0x80 && c != '"' && c != '&' && c != '<' && c != '>' && c != '\\'

/-- What Go's `appendString` (with HTML escaping, as `Marshal` uses it)
emits for one character. Backspace and form feed are written `\b` and `\f`,
as Go does since 1.22 (before: `\u0008` and `\u000c`, which read back the
same). -/
def appendChar (c : Char) : List Char :=
  if c.toNat < 0x80 then
    if htmlSafe c then [c]
    else if c = '\\' ∨ c = '"' then ['\\', c]
    else if c = '\x08' then ['\\', 'b']
    else if c = '\x0c' then ['\\', 'f']
    else if c = '\n' then ['\\', 'n']
    else if c = '\r' then ['\\', 'r']
    else if c = '\t' then ['\\', 't']
    else ['\\', 'u', '0', '0', hexDigit (c.toNat / 16), hexDigit (c.toNat % 16)]
  else if c = Char.ofNat 0x2028 ∨ c = Char.ofNat 0x2029 then
    ['\\', 'u', '2', '0', '2', hexDigit (c.toNat % 16)]
  else [c]

/-- What `appendString` emits at one position of the string: the character,
escaped where needed, or the escape `\ufffd` for a byte that is not UTF-8. -/
def appendRune : Option Char → List Char
  | some c => appendChar c
  | none => ['\\', 'u', 'f', 'f', 'f', 'd']

/-- The escaped text of a string, without the quotes. -/
def escape : List (Option Char) → List Char
  | [] => []
  | r :: rs => appendRune r ++ escape rs

/-- Go's `appendString`: a string as a JSON string literal. -/
def appendString (src : GoString) : List Char :=
  '"' :: (escape (runes src) ++ ['"'])

/-- The elements of a JSON array of strings, each but the first after a
comma (the loop of Go's `arrayEncoder`). -/
def appendElems (first : Bool) : List GoString → List Char
  | [] => []
  | s :: rest => (if first then [] else [',']) ++ appendString s ++ appendElems false rest

/-- A (non-nil) string slice as a JSON array. -/
def appendArray (xs : List GoString) : List Char :=
  '[' :: (appendElems true xs ++ [']'])

/-- The text from the end of the name to the end of the request body: it
does not depend on the name. -/
def scopesPart (scopes : List GoString) : List Char :=
  ",\"scopes\":".toList ++ appendArray scopes ++ ['}']

/-- The call `json.Marshal(requestPayload)`: fields in declaration order
under their tags, no white space. The error result exists in the
signature only: a struct of a string and a string slice always marshals. -/
def jsonMarshal (p : APIKeyRequest) : Except String String :=
  .ok (String.mk ("\x7b\"name\":".toList ++ appendString p.Name ++ scopesPart p.Scopes))

/-! ## The program -/

/-- definedScopes holds the complete list of permissions for the new API key. -/
def definedScopes : List String := [
  "mail.send",
  "mail.batch.create",
  "mail.batch.delete",
  "mail.batch.read",
  "mail.batch.update",
  "mail_settings.address_whitelist.read",
  "mail_settings.address_whitelist.update",
  "mail_settings.bcc.read",
  "mail_settings.bcc.update",
  "mail_settings.bounce_purge.read",
  "mail_settings.bounce_purge.update",
  "mail_settings.footer.read",
  "mail_settings.footer.update",
  "mail_settings.forward_bounce.read",
  "mail_settings.forward_bounce.update",
  "mail_settings.forward_spam.read",
  "mail_settings.forward_spam.update",
  "mail_settings.plain_content.read",
  "mail_settings.plain_content.update",
  "mail_settings.read",
  "mail_settings.spam_check.read",
  "mail_settings.spam_check.update",
  "mail_settings.template.read",
  "mail_settings.template.update",
  "user.scheduled_sends.create",
  "user.scheduled_sends.delete",
  "user.scheduled_sends.read",
  "user.scheduled_sends.update",
  "user.webhooks.event.settings.create",
  "user.webhooks.event.settings.read",
  "user.webhooks.event.settings.update",
  "user.webhooks.event.settings.delete",
  "user.webhooks.event.test.create",
  "user.webhooks.event.test.read",
  "user.webhooks.event.test.update"]

/-- The request handed to the transport, by what `main` puts into it: the
three arguments of `sendgrid.GetRequest` and the two fields assigned
afterwards. -/
structure Request where
  key : String
  endpoint : String
  host : String
  Method : String
  Body : String
  deriving DecidableEq

/-- The call `sendgrid.GetRequest(key, endpoint, host)`: a request for that
key, endpoint and host, method and body not yet set. -/
def GetRequest (key endpoint host : String) : Request :=
  { key := key, endpoint := endpoint, host := host, Method := "", Body := "" }

/-- The fields of `rest.Response` that `main` reads. -/
structure Response where
  StatusCode : Int
  Body : String
  deriving DecidableEq

/-- What `sendgrid.API(request)` returns: `(response, nil)`, or an error
together with a response or with `nil`. The client never returns a `nil`
response without an error. -/
inductive APIResult where
  | ok (response : Response)
  | failed (err : String) (response : Option Response)
  deriving DecidableEq

/-- What a run of `main` leaves behind: the exit code, the writes to
standard output and to standard error (one entry per call, in order), and
the requests handed to `sendgrid.API` (in order). -/
structure Outcome where
  exitCode : Int
  stdout : List String
  stderr : List String
  requests : List Request
  deriving DecidableEq

/-- The call `os.Getenv(name)`: the value, or the empty string when the
variable is not set. -/
def Getenv (env : String → Option String) (name : String) : String :=
  (env name).getD ""

/-- What `fmt.Fprintln(w, s)` and `fmt.Println(s)` write. -/
def Sprintln (s : String) : String := s ++ "\n"

/-- The procedure `main`. `args` is `os.Args`, `env` the environment, `API`
the transport `sendgrid.API`, and `errText` the text (`%v`) of an error
returned by `json.Unmarshal`. -/
def main (args : List GoString) (env : String → Option String) (API : Request → APIResult)
    (errText : UnmarshalError → String) : Outcome :=
  -- 1. Get the new API key name from command-line arguments
  if args.length < 2 then
    { exitCode := 1, stdout := [], requests := [],
      stderr := [Sprintln "Usage: go run your_script_name.go \"New API Key Name\""] }
  else
  let newApiKeyName := args.getD 1 []
  -- 2. Get the Admin API Key (Bearer Token) from environment variable
  let adminApiKey := Getenv env "SENDGRID_API_KEY"
  if adminApiKey = "" then
    { exitCode := 1, stdout := [], requests := [],
      stderr := [Sprintln "Error: SENDGRID_API_KEY environment variable not set."] }
  else
  -- 3. Prepare the request body using the single definedScopes list
  let requestPayload : APIKeyRequest :=
    { Name := newApiKeyName, Scopes := definedScopes.map utf8 }
  match jsonMarshal requestPayload with
  | .error err =>
    { exitCode := 1, stdout := [], requests := [],
      stderr := ["Error marshalling request body: " ++ err ++ "\n"] }
  | .ok requestBodyBytes =>
  -- 4. Prepare and send the SendGrid API request
  let host := "https://api.sendgrid.com"
  let request := GetRequest adminApiKey "/v3/api_keys" host
  let request := { request with Method := "POST" }
  let request := { request with Body := requestBodyBytes }
  match API request with
  | .failed err response =>
    { exitCode := 1, stdout := [], requests := [request],
      stderr := ("Error calling SendGrid API: " ++ err ++ "\n") ::
        (match response with
         | some response =>
           ["Response Status Code (if available): " ++ toString response.StatusCode ++ "\n",
            "Response Body (if available): " ++ response.Body ++ "\n"]
         | none => []) }
  | .ok response =>
  -- 5. Process the response from SendGrid
  if response.StatusCode = 201 then
    match jsonUnmarshal response.Body with
    | .error err =>
      { exitCode := 1, stdout := [], requests := [request],
        stderr := ["Error unmarshalling successful response body: " ++ errText err ++ "\n",
                   "Raw Response Body: " ++ response.Body ++ "\n"] }
    | .ok apiKeyResp =>
      if apiKeyResp.APIKey = "" then
        { exitCode := 1, stdout := [], requests := [request],
          stderr := [Sprintln "Error: API key not found in successful SendGrid response.",
                     "Raw Response Body: " ++ response.Body ++ "\n"] }
      else
        -- Only print the API key to stdout on success
        { exitCode := 0, stdout := [Sprintln apiKeyResp.APIKey], stderr := [],
          requests := [request] }
  else
    -- Handle non-201 status codes (API errors from SendGrid)
    { exitCode := 1, stdout := [], requests := [request],
      stderr := ["Error: SendGrid API responded with status code " ++
                   toString response.StatusCode ++ ".\n",
                 "Response Body: " ++ response.Body ++ "\n"] }

/-! ## JSON texts

The grammar of RFC 8259, as a data type of texts: `render` gives the
characters of a text, `valid` says that its parts are what the grammar
allows, `value` is the JSON value it stands for. A body is well-formed JSON
when it is the characters of a valid text between white space. -/

/-- One item of the text of a JSON string literal. -/
inductive StringItem where
  /-- A character written as itself. -/
  | plain (c : Char)
  /-- A backslash and one of `" \ / b f n r t`. -/
  | escaped (c : Char)
  /-- The escape `\u` and four hexadecimal digits. -/
  | unicode (a b c d : Char)

/-- The item is allowed by the grammar. -/
def StringItem.valid : StringItem → Bool
  | .plain c => c != '"' && c != '\\' && decide (0x20 ≤ c.toNat)
  | .escaped c => ['"', '\\', '/', 'b', 'f', 'n', 'r', 't'].contains c
  | .unicode a b c d =>
    (hexVal a).isSome && (hexVal b).isSome && (hexVal c).isSome && (hexVal d).isSome

/-- The characters of the item. -/
def StringItem.render : StringItem → List Char
  | .plain c => [c]
  | .escaped c => ['\\', c]
  | .unicode a b c d => ['\\', 'u', a, b, c, d]

/-- The characters of a string literal, between the quotes. -/
def renderItems : List StringItem → List Char
  | [] => []
  | i :: rest => i.render ++ renderItems rest

/-- The character a two-character escape stands for. -/
def unescape (c : Char) : Char :=
  if c = 'b' then '\x08'
  else if c = 'f' then '\x0c'
  else if c = 'n' then '\n'
  else if c = 'r' then '\r'
  else if c = 't' then '\t'
  else c

/-- The value of four hexadecimal digits. -/
def hex4 (a b c d : Char) : Nat :=
  ((((hexVal a).getD 0) * 16 + (hexVal b).getD 0) * 16 + (hexVal c).getD 0) * 16 +
    (hexVal d).getD 0

/-- The characters a string literal stands for. `pending` is a surrogate
escape that still waits for its partner. -/
def decodeItems (pending : Option Nat) : List StringItem → List Char
  | [] => flush [] pending
  | .plain c :: rest => flush [] pending ++ c :: decodeItems none rest
  | .escaped c :: rest => flush [] pending ++ unescape c :: decodeItems none rest
  | .unicode a b c d :: rest =>
    match pending with
    | some hi =>
      if 0xD800 ≤ hi ∧ hi < 0xDC00 ∧ 0xDC00 ≤ hex4 a b c d ∧ hex4 a b c d < 0xE000 then
        Char.ofNat ((hi - 0xD800) * 0x400 + (hex4 a b c d - 0xDC00) + 0x10000) ::
          decodeItems none rest
      else if isSurrogate (hex4 a b c d) then
        replacementChar :: decodeItems (some (hex4 a b c d)) rest
      else replacementChar :: Char.ofNat (hex4 a b c d) :: decodeItems none rest
    | none =>
      if isSurrogate (hex4 a b c d) then decodeItems (some (hex4 a b c d)) rest
      else Char.ofNat (hex4 a b c d) :: decodeItems none rest

/-- The text of a JSON number, by its parts. -/
structure NumberText where
  minus : Bool
  int : List Char
  frac : Option (List Char)
  exp : Option (Char × Option Char × List Char)

/-- A non-empty run of decimal digits. -/
def isDigits (ds : List Char) : Bool := ds != [] && ds.all isDigit

/-- The exponent part is allowed by the grammar. -/
def validExp : Option (Char × Option Char × List Char) → Bool
  | none => true
  | some (e, sign, ds) =>
    (e = 'e' || e = 'E') && (sign == none || sign == some '+' || sign == some '-') &&
      isDigits ds

/-- The fraction part is allowed by the grammar. -/
def validFrac : Option (List Char) → Bool
  | none => true
  | some ds => isDigits ds

/-- The integer part is allowed by the grammar: `0`, or a digit from 1 to 9
and more digits. -/
def validInt : List Char → Bool
  | [] => false
  | d :: ds => (d = '0' && ds == []) || (decide ('1' ≤ d ∧ d ≤ '9') && ds.all isDigit)

/-- The parts are allowed by the grammar. -/
def NumberText.valid (n : NumberText) : Bool :=
  validInt n.int && validFrac n.frac && validExp n.exp

/-- The characters of the fraction part. -/
def renderFrac : Option (List Char) → List Char
  | none => []
  | some ds => '.' :: ds

/-- The characters of the exponent part. -/
def renderExp : Option (Char × Option Char × List Char) → List Char
  | none => []
  | some (e, sign, ds) => e :: (sign.toList ++ ds)

/-- The characters of the number. -/
def NumberText.render (n : NumberText) : List Char :=
  (if n.minus then ['-'] else []) ++ (n.int ++ (renderFrac n.frac ++ renderExp n.exp))

mutual
/-- A JSON text by the grammar of RFC 8259, with its white space. -/
inductive JSONText where
  | litNull
  | litTrue
  | litFalse
  | number (n : NumberText)
  | string (items : List StringItem)
  | array (ws : List Char) (elems : Elements)
  | object (ws : List Char) (members : Members)
/-- The elements of an array, each with the white space around it. -/
inductive Elements where
  | nil
  | cons (before : List Char) (v : JSONText) (after : List Char) (more : Elements)
/-- The members of an object, each with the white space around its key and
around its value. -/
inductive Members where
  | nil
  | cons (beforeKey : List Char) (key : List StringItem) (afterKey : List Char)
      (beforeValue : List Char) (v : JSONText) (after : List Char) (more : Members)
end

/-- White space only. -/
def isWS (ws : List Char) : Bool := ws.all isSpace

mutual
/-- The characters of a text. -/
def JSONText.render : JSONText → List Char
  | .litNull => ['n', 'u', 'l', 'l']
  | .litTrue => ['t', 'r', 'u', 'e']
  | .litFalse => ['f', 'a', 'l', 's', 'e']
  | .number n => n.render
  | .string items => '"' :: (renderItems items ++ ['"'])
  | .array ws elems => '[' :: (ws ++ (elems.render true ++ [']']))
  | .object ws members => '{' :: (ws ++ (members.render true ++ ['}']))
/-- The characters of the elements, each but the first after a comma. -/
def Elements.render (first : Bool) : Elements → List Char
  | .nil => []
  | .cons before v after more =>
    (if first then [] else [',']) ++ (before ++ (v.render ++ (after ++ more.render false)))
/-- The characters of the members, each but the first after a comma. -/
def Members.render (first : Bool) : Members → List Char
  | .nil => []
  | .cons beforeKey key afterKey beforeValue v after more =>
    (if first then [] else [',']) ++ (beforeKey ++ ('"' :: (renderItems key ++ ('"' ::
      (afterKey ++ (':' :: (beforeValue ++ (v.render ++ (after ++ more.render false)))))))))
end

mutual
/-- The text is allowed by the grammar: white space where white space is
meant, and numbers and strings that are allowed. -/
def JSONText.valid : JSONText → Bool
  | .litNull => true
  | .litTrue => true
  | .litFalse => true
  | .number n => n.valid
  | .string items => items.all StringItem.valid
  | .array ws elems => isWS ws && elems.valid
  | .object ws members => isWS ws && members.valid
/-- The elements are allowed by the grammar. -/
def Elements.valid : Elements → Bool
  | .nil => true
  | .cons before v after more => isWS before && v.valid && isWS after && more.valid
/-- The members are allowed by the grammar. -/
def Members.valid : Members → Bool
  | .nil => true
  | .cons beforeKey key afterKey beforeValue v after more =>
    isWS beforeKey && key.all StringItem.valid && isWS afterKey && isWS beforeValue &&
      v.valid && isWS after && more.valid
end

mutual
/-- How deep arrays and objects nest in the text. -/
def JSONText.depth : JSONText → Nat
  | .array _ elems => elems.depth + 1
  | .object _ members => members.depth + 1
  | _ => 0
/-- The deepest of the elements. -/
def Elements.depth : Elements → Nat
  | .nil => 0
  | .cons _ v _ more => max v.depth more.depth
/-- The deepest of the member values. -/
def Members.depth : Members → Nat
  | .nil => 0
  | .cons _ _ _ _ v _ more => max v.depth more.depth
end

mutual
/-- The JSON value a text stands for. -/
def JSONText.value : JSONText → JSONValue
  | .litNull => .null
  | .litTrue => .bool true
  | .litFalse => .bool false
  | .number n => .number (String.mk n.render)
  | .string items => .string (String.mk (decodeItems none items))
  | .array _ elems => .array elems.values
  | .object _ members => .object members.values
/-- The values of the elements. -/
def Elements.values : Elements → List JSONValue
  | .nil => []
  | .cons _ v _ more => v.value :: more.values
/-- The keys and values of the members. -/
def Members.values : Members → List (String × JSONValue)
  | .nil => []
  | .cons _ key _ _ v _ more => (String.mk (decodeItems none key), v.value) :: more.values
end

/-! ## Vocabulary of the scanner proofs -/

/-- The steps in which the scanner skips white space. -/
def skipsSpace : Step → Prop
  | .beginValueOrEmpty => True
  | .beginValue => True
  | .beginStringOrEmpty => True
  | .beginString => True
  | .endValue _ => True
  | _ => False

/-- A character that may follow a value: white space, a comma, or the end
of the enclosing array or object. -/
def isDelim (c : Char) : Prop :=
  c = ' ' ∨ c = '\t' ∨ c = '\r' ∨ c = '\n' ∨ c = ',' ∨ c = ']' ∨ c = '}'

/-- The steps after the integer or fraction digits, where an exponent or
the end of the number may follow. -/
def afterDigits (lit : List Char) : Step → Prop
  | .zero l => l = lit
  | .one l => l = lit
  | .dot0 l => l = lit
  | _ => False

/-- The steps in which a value may begin. -/
def startsValue (st : Step) : Prop := st = .beginValue ∨ st = .beginValueOrEmpty

/-! ## Vocabulary of the statements -/

/-- The body `main` marshals for a key name. -/
def requestBody (name : GoString) : String :=
  String.mk ("\x7b\"name\":".toList ++ appendString name ++
    scopesPart (definedScopes.map utf8))

/-- The request `main` hands to the transport, for an argument vector with
a key name and an environment with a credential. -/
def dispatched (args : List GoString) (env : String → Option String) : Request :=
  { key := Getenv env "SENDGRID_API_KEY", endpoint := "/v3/api_keys",
    host := "https://api.sendgrid.com", Method := "POST",
    Body := requestBody (args.getD 1 []) }

/-- The number of positional arguments: the argument vector without the
program name. -/
def positional (args : List GoString) : Nat := args.length - 1

/-- A text is exactly one non-empty line: some characters, none of them a
line feed, followed by one line feed. -/
def oneNonEmptyLine (text : String) : Bool :=
  match text.toList.reverse with
  | '\n' :: line => line != [] && !line.contains '\n'
  | _ => false

/-- The value is a JSON string. -/
def JSONValue.isString : JSONValue → Bool
  | .string _ => true
  | _ => false

/-- The value is the JSON `null`. -/
def JSONValue.isNull : JSONValue → Bool
  | .null => true
  | _ => false

/-- The strings held by the members of an object whose key the decoder
matches with the `api_key` field, in the order of the text. -/
def apiKeyStrings : List (String × JSONValue) → List String
  | [] => []
  | (k, .string s) :: rest =>
    if findField k = some .APIKey then s :: apiKeyStrings rest else apiKeyStrings rest
  | _ :: rest => apiKeyStrings rest

/-- The string the decoder leaves in the `APIKey` field, when a member of
the text supplies one: the last of `apiKeyStrings`. -/
def JSONValue.apiKey : JSONValue → Option String
  | .object members => (apiKeyStrings members).getLast?
  | _ => none

/-- The object has a member whose key is exactly `key`. -/
def hasMember (key : String) (members : List (String × JSONValue)) : Bool :=
  members.any (fun m => m.1 == key)

/-- An environment in which only `SENDGRID_API_KEY` may be set. -/
def sampleEnv (credential : Option String) : String → Option String :=
  fun name => if name = "SENDGRID_API_KEY" then credential else none

/-- A transport that answers every request with the same response. -/
def sampleAPI (status : Int) (body : String) : Request → APIResult :=
  fun _ => .ok ⟨status, body⟩

/-- An argument vector with the program name and one key name. -/
def sampleArgs : List GoString := [utf8 "create-sendgrid-key", utf8 "my key"]

/-- The key name `a\xffb`: the byte `0xff` between `a` and `b`. No text has
these bytes as its UTF-8 encoding. -/
def nameWithBadByte : GoString := [0x61, 0xFF, 0x62]

/-- The environment with the credential `SG.admin`. -/
def credentialSet : String → Option String := sampleEnv (some "SG.admin")

/-- The body `{}`. -/
def bodyEmptyObject : String := "\x7b\x7d"

/-- The body `{"api_key":"SG.new"}`. -/
def bodyKeyOnly : String := "\x7b\"api_key\":\"SG.new\"\x7d"

/-- The body `{"api_key":"SG.new","name":"my key","api_key_id":null,"scopes":[1]}`. -/
def bodyComplete : String :=
  "\x7b\"api_key\":\"SG.new\",\"name\":\"my key\",\"api_key_id\":null,\"scopes\":[1]\x7d"

/-- The body `{"api_key":"SG.new","name":5}`. -/
def bodyNumberName : String := "\x7b\"api_key\":\"SG.new\",\"name\":5\x7d"

/-- The body `{"api_key":"SG.new","name":null}`. -/
def bodyNullName : String := "\x7b\"api_key\":\"SG.new\",\"name\":null\x7d"

/-- The body `{"API_KEY":"SG.new"}`. -/
def bodyUpperCaseKey : String := "\x7b\"API_KEY\":\"SG.new\"\x7d"

/-- The body `{"api_key":"","Api_Key":"SG.new"}`. -/
def bodyEmptyThenMixedCase : String := "\x7b\"api_key\":\"\",\"Api_Key\":\"SG.new\"\x7d"

/-- The body `{"api_key":"SG.new","Api_Key":""}`. -/
def bodyKeyThenEmptyMixedCase : String :=
  "\x7b\"api_key\":\"SG.new\",\"Api_Key\":\"\"\x7d"

/-- The body `{"name":"my key","api_key_id":"id"}`. -/
def bodyWithoutKey : String := "\x7b\"name\":\"my key\",\"api_key_id\":\"id\"\x7d"

/-- The truncated body `{"api_key":"SG.new","na`. -/
def bodyTruncated : String := "\x7b\"api_key\":\"SG.new\",\"na"

/-- The body `{"api_key":"a\nb"}`: the key is `a`, a line feed, `b`. -/
def bodyLineFeedKey : String := "\x7b\"api_key\":\"a\\nb\"\x7d"

/-- The items of a string literal that is written without escapes. -/
def plainItems (s : String) : List StringItem := s.toList.map .plain

/-- The text of `bodyComplete`, by the grammar. -/
def textComplete : JSONText :=
  .object [] (.cons [] (plainItems "api_key") [] [] (.string (plainItems "SG.new")) []
    (.cons [] (plainItems "name") [] [] (.string (plainItems "my key")) []
    (.cons [] (plainItems "api_key_id") [] [] .litNull []
    (.cons [] (plainItems "scopes") [] []
      (.array [] (.cons [] (.number ⟨false, ['1'], none, none⟩) [] .nil)) [] .nil))))

/-- The text `[[...[]...]]` of `n + 1` arrays, one inside the other. -/
def nestedArrays : Nat → JSONText
  | 0 => .array [] .nil
  | n + 1 => .array [] (.cons [] (nestedArrays n) [] .nil)

/-- The text `{"api_key":"SG.new","x":[[...[]...]]}` with `n + 1` arrays
under `x`. -/
def textNested (n : Nat) : JSONText :=
  .object [] (.cons [] (plainItems "api_key") [] [] (.string (plainItems "SG.new")) []
    (.cons [] (plainItems "x") [] [] (nestedArrays n) [] .nil))

/-- The body `{"api_key":"SG.new","x":[[...[]...]]}` with 10000 arrays under
`x`: well-formed JSON, nested 10001 deep. -/
def bodyTooDeep : String := String.mk (textNested 9999).render

/-- A rendering of unmarshalling errors, for concrete runs. -/
def sampleErrText : UnmarshalError → String
  | .syntaxError => "syntax error"
  | .typeError value field => "cannot unmarshal " ++ value ++ " into " ++ field

/-- The successful end of a run: exit code 0, and standard output written
once, with the key and the line break `fmt.Println` adds. -/
def Outcome.success (o : Outcome) (key : String) : Prop :=
  o.exitCode = 0 ∧ o.stdout = [key ++ "\n"] ∧ key ≠ ""

/-- The failed end of a run: exit code 1, nothing written to standard
output, something written to standard error. -/
def Outcome.failure (o : Outcome) : Prop :=
  o.exitCode = 1 ∧ o.stdout = [] ∧ o.stderr ≠ []

/-! ## How `main` ends, branch by branch -/

theorem main_usage (args : List GoString) (env : String → Option String)
    (API : Request → APIResult) (errText : UnmarshalError → String)
    (h : args.length < 2) :
    main args env API errText =
      { exitCode := 1, stdout := [], requests := [],
        stderr := ["Usage: go run your_script_name.go \"New API Key Name\"\n"] } := by
  simp [main, h, Sprintln]

theorem main_no_credential (args : List GoString) (env : String → Option String)
    (API : Request → APIResult) (errText : UnmarshalError → String)
    (h : 2 ≤ args.length) (hkey : Getenv env "SENDGRID_API_KEY" = "") :
    main args env API errText =
      { exitCode := 1, stdout := [], requests := [],
        stderr := ["Error: SENDGRID_API_KEY environment variable not set.\n"] } := by
  have h1 : ¬ args.length < 2 := by omega
  simp [main, h1, hkey, Sprintln]

theorem main_transport_error (args : List GoString) (env : String → Option String)
    (API : Request → APIResult) (errText : UnmarshalError → String)
    (h : 2 ≤ args.length) (hkey : Getenv env "SENDGRID_API_KEY" ≠ "")
    (err : String) (response : Option Response)
    (hapi : API (dispatched args env) = .failed err response) :
    main args env API errText =
      { exitCode := 1, stdout := [], requests := [dispatched args env],
        stderr := ("Error calling SendGrid API: " ++ err ++ "\n") ::
          (match response with
           | some response =>
             ["Response Status Code (if available): " ++ toString response.StatusCode ++ "\n",
              "Response Body (if available): " ++ response.Body ++ "\n"]
           | none => []) } := by
  have h1 : ¬ args.length < 2 := by omega
  simp only [main, if_neg h1, if_neg hkey, jsonMarshal, GetRequest, dispatched, requestBody]
    at hapi ⊢
  simp only [hapi]
  cases response <;> rfl

theorem main_status (args : List GoString) (env : String → Option String)
    (API : Request → APIResult) (errText : UnmarshalError → String)
    (h : 2 ≤ args.length) (hkey : Getenv env "SENDGRID_API_KEY" ≠ "")
    (response : Response) (hapi : API (dispatched args env) = .ok response)
    (hcode : response.StatusCode ≠ 201) :
    main args env API errText =
      { exitCode := 1, stdout := [], requests := [dispatched args env],
        stderr := ["Error: SendGrid API responded with status code " ++
                     toString response.StatusCode ++ ".\n",
                   "Response Body: " ++ response.Body ++ "\n"] } := by
  have h1 : ¬ args.length < 2 := by omega
  simp only [main, if_neg h1, if_neg hkey, jsonMarshal, GetRequest, dispatched, requestBody]
    at hapi ⊢
  simp only [hapi]
  simp [Sprintln, hcode]

theorem main_unmarshal_error (args : List GoString) (env : String → Option String)
    (API : Request → APIResult) (errText : UnmarshalError → String)
    (h : 2 ≤ args.length) (hkey : Getenv env "SENDGRID_API_KEY" ≠ "")
    (response : Response) (hapi : API (dispatched args env) = .ok response)
    (hcode : response.StatusCode = 201)
    (err : UnmarshalError) (hjson : jsonUnmarshal response.Body = .error err) :
    main args env API errText =
      { exitCode := 1, stdout := [], requests := [dispatched args env],
        stderr := ["Error unmarshalling successful response body: " ++ errText err ++ "\n",
                   "Raw Response Body: " ++ response.Body ++ "\n"] } := by
  have h1 : ¬ args.length < 2 := by omega
  simp only [main, if_neg h1, if_neg hkey, jsonMarshal, GetRequest, dispatched, requestBody]
    at hapi ⊢
  simp only [hapi]
  simp [Sprintln, hcode, hjson]

theorem main_key_missing (args : List GoString) (env : String → Option String)
    (API : Request → APIResult) (errText : UnmarshalError → String)
    (h : 2 ≤ args.length) (hkey : Getenv env "SENDGRID_API_KEY" ≠ "")
    (response : Response) (hapi : API (dispatched args env) = .ok response)
    (hcode : response.StatusCode = 201)
    (resp : CreateAPIKeyResponse) (hjson : jsonUnmarshal response.Body = .ok resp)
    (hempty : resp.APIKey = "") :
    main args env API errText =
      { exitCode := 1, stdout := [], requests := [dispatched args env],
        stderr := ["Error: API key not found in successful SendGrid response.\n",
                   "Raw Response Body: " ++ response.Body ++ "\n"] } := by
  have h1 : ¬ args.length < 2 := by omega
  simp only [main, if_neg h1, if_neg hkey, jsonMarshal, GetRequest, dispatched, requestBody]
    at hapi ⊢
  simp only [hapi]
  simp [Sprintln, hcode, hjson, hempty]

theorem main_success (args : List GoString) (env : String → Option String)
    (API : Request → APIResult) (errText : UnmarshalError → String)
    (h : 2 ≤ args.length) (hkey : Getenv env "SENDGRID_API_KEY" ≠ "")
    (response : Response) (hapi : API (dispatched args env) = .ok response)
    (hcode : response.StatusCode = 201)
    (resp : CreateAPIKeyResponse) (hjson : jsonUnmarshal response.Body = .ok resp)
    (hfull : resp.APIKey ≠ "") :
    main args env API errText =
      { exitCode := 0, stdout := [resp.APIKey ++ "\n"], stderr := [],
        requests := [dispatched args env] } := by
  have h1 : ¬ args.length < 2 := by omega
  simp only [main, if_neg h1, if_neg hkey, jsonMarshal, GetRequest, dispatched, requestBody]
    at hapi ⊢
  simp only [hapi]
  simp [Sprintln, hcode, hjson, hfull]

/-! ## The decoder -/

theorem foldl_member_savedError (ms : List (String × JSONValue)) (d : Decoder)
    (h : ∀ m ∈ ms, findField m.1 ≠ none → m.2.isString = true ∨ m.2.isNull = true) :
    (ms.foldl Decoder.member d).savedError = d.savedError := by
  induction ms generalizing d with
  | nil => rfl
  | cons m ms ih =>
    have hm := h m (List.mem_cons_self _ _)
    have hrest : ∀ x ∈ ms, findField x.1 ≠ none → x.2.isString = true ∨ x.2.isNull = true :=
      fun x hx => h x (List.mem_cons_of_mem _ hx)
    rw [List.foldl_cons, ih _ hrest]
    obtain ⟨k, v⟩ := m
    unfold Decoder.member
    cases hf : findField k with
    | none => rfl
    | some f =>
      have hv := hm (by simp [hf])
      cases v <;> simp_all [JSONValue.isString, JSONValue.isNull]

theorem foldl_member_error_stays (ms : List (String × JSONValue)) (d : Decoder)
    (h : d.savedError ≠ none) : (ms.foldl Decoder.member d).savedError ≠ none := by
  induction ms generalizing d with
  | nil => exact h
  | cons m ms ih =>
    rw [List.foldl_cons]
    apply ih
    obtain ⟨k, v⟩ := m
    unfold Decoder.member
    cases hf : findField k with
    | none => exact h
    | some f =>
      cases hd : d.savedError with
      | none => exact absurd hd h
      | some e => cases v <;> simp [Decoder.saveError, hd]

theorem foldl_member_type_error (ms : List (String × JSONValue)) (d : Decoder)
    (k : String) (v : JSONValue) (hmem : (k, v) ∈ ms) (hfield : findField k ≠ none)
    (hs : v.isString = false) (hn : v.isNull = false) :
    (ms.foldl Decoder.member d).savedError ≠ none := by
  induction ms generalizing d with
  | nil => cases hmem
  | cons m ms ih =>
    rw [List.foldl_cons]
    rcases List.mem_cons.mp hmem with heq | hin
    · subst heq
      apply foldl_member_error_stays
      unfold Decoder.member
      cases hf : findField k with
      | none => exact absurd hf hfield
      | some f =>
        cases hd : d.savedError <;>
          cases v <;> simp_all [Decoder.saveError, JSONValue.isString, JSONValue.isNull]
    · exact ih _ hin

theorem set_APIKey (r : CreateAPIKeyResponse) (f : Field) (s : String) :
    (r.set f s).APIKey = if f = .APIKey then s else r.APIKey := by
  cases f <;> simp [CreateAPIKeyResponse.set]

theorem apiKeyStrings_cons_string (k s : String) (rest : List (String × JSONValue)) :
    apiKeyStrings ((k, .string s) :: rest) =
      if findField k = some .APIKey then s :: apiKeyStrings rest else apiKeyStrings rest := by
  simp [apiKeyStrings]

theorem apiKeyStrings_cons_other (k : String) (v : JSONValue)
    (rest : List (String × JSONValue)) (hv : v.isString = false) :
    apiKeyStrings ((k, v) :: rest) = apiKeyStrings rest := by
  cases v <;> simp_all [apiKeyStrings, JSONValue.isString]

theorem member_resp_other (d : Decoder) (k : String) (v : JSONValue)
    (hv : v.isString = false) : (d.member (k, v)).resp = d.resp := by
  unfold Decoder.member
  cases findField k with
  | none => rfl
  | some f =>
    cases hd : d.savedError <;> cases v <;>
      simp_all [Decoder.saveError, JSONValue.isString]

theorem member_resp_string (d : Decoder) (k s : String) :
    (d.member (k, .string s)).resp.APIKey =
      if findField k = some .APIKey then s else d.resp.APIKey := by
  unfold Decoder.member
  cases hf : findField k with
  | none => simp
  | some f => cases f <;> simp [CreateAPIKeyResponse.set]

theorem foldl_member_APIKey (ms : List (String × JSONValue)) (d : Decoder) :
    (ms.foldl Decoder.member d).resp.APIKey =
      ((apiKeyStrings ms).getLast?).getD d.resp.APIKey := by
  induction ms generalizing d with
  | nil => rfl
  | cons m ms ih =>
    rw [List.foldl_cons, ih]
    obtain ⟨k, v⟩ := m
    by_cases hv : v.isString = true
    · cases v <;> simp [JSONValue.isString] at hv
      rename_i s
      rw [apiKeyStrings_cons_string, member_resp_string]
      by_cases hk : findField k = some .APIKey
      · simp only [if_pos hk, List.getLast?_cons, Option.getD_some]
      · simp only [if_neg hk]
    · have hv1 : v.isString = false := by simpa using hv
      rw [apiKeyStrings_cons_other k v ms hv1, member_resp_other d k v hv1]

theorem jsonUnmarshal_object (body : String) (ms : List (String × JSONValue))
    (hjson : parseJSON body = some (.object ms)) :
    jsonUnmarshal body =
      match (ms.foldl Decoder.member Decoder.init).savedError with
      | some err => .error err
      | none => .ok (ms.foldl Decoder.member Decoder.init).resp := by
  simp [jsonUnmarshal, hjson, Decoder.value]

theorem jsonUnmarshal_ok_APIKey (body : String) (v : JSONValue) (resp : CreateAPIKeyResponse)
    (hjson : parseJSON body = some v) (hok : jsonUnmarshal body = .ok resp) :
    resp.APIKey = v.apiKey.getD "" := by
  unfold jsonUnmarshal at hok
  rw [hjson] at hok
  simp only at hok
  cases hd : (Decoder.init.value v).savedError with
  | some err => rw [hd] at hok; cases hok
  | none =>
    rw [hd] at hok
    injection hok with hresp
    subst hresp
    cases v with
    | object ms => exact foldl_member_APIKey ms Decoder.init
    | null => rfl
    | bool b => simp [Decoder.value, Decoder.saveError, Decoder.init] at hd
    | number n => simp [Decoder.value, Decoder.saveError, Decoder.init] at hd
    | string s => simp [Decoder.value, Decoder.saveError, Decoder.init] at hd
    | array a => simp [Decoder.value, Decoder.saveError, Decoder.init] at hd

theorem positional_pos (args : List GoString) : 1 ≤ positional args ↔ 2 ≤ args.length := by
  unfold positional; omega

theorem Getenv_of_unset (env : String → Option String) (name : String)
    (h : env name = none ∨ env name = some "") : Getenv env name = "" := by
  rcases h with h | h <;> simp [Getenv, h]

theorem main_take_two (args : List GoString) (env : String → Option String)
    (API : Request → APIResult) (errText : UnmarshalError → String) :
    main args env API errText = main (args.take 2) env API errText := by
  match args with
  | [] => rfl
  | [_] => rfl
  | a :: b :: rest => simp [main]

/-- Every run of `main` ends in one of the six ways of the branch lemmas. -/
theorem main_cases (args : List GoString) (env : String → Option String)
    (API : Request → APIResult) (errText : UnmarshalError → String) :
    ((main args env API errText).failure ∧ (main args env API errText).requests = [] ∧
        (positional args = 0 ∨ Getenv env "SENDGRID_API_KEY" = "")) ∨
    (1 ≤ positional args ∧ Getenv env "SENDGRID_API_KEY" ≠ "" ∧
      (main args env API errText).requests = [dispatched args env] ∧
      ((main args env API errText).failure ∨
        ∃ response resp, API (dispatched args env) = .ok response ∧
          response.StatusCode = 201 ∧ jsonUnmarshal response.Body = .ok resp ∧
          (main args env API errText).success resp.APIKey ∧
          (main args env API errText).stderr = [])) := by
  by_cases h : args.length < 2
  · left
    rw [main_usage args env API errText h]
    refine ⟨⟨rfl, rfl, by simp⟩, rfl, Or.inl ?_⟩
    unfold positional; omega
  · have h2 : 2 ≤ args.length := by omega
    by_cases hkey : Getenv env "SENDGRID_API_KEY" = ""
    · left
      rw [main_no_credential args env API errText h2 hkey]
      exact ⟨⟨rfl, rfl, by simp⟩, rfl, Or.inr hkey⟩
    · right
      refine ⟨(positional_pos args).mpr h2, hkey, ?_⟩
      cases hapi : API (dispatched args env) with
      | failed err response =>
        rw [main_transport_error args env API errText h2 hkey err response hapi]
        exact ⟨rfl, Or.inl ⟨rfl, rfl, by simp⟩⟩
      | ok response =>
        by_cases hcode : response.StatusCode = 201
        · cases hjson : jsonUnmarshal response.Body with
          | error err =>
            rw [main_unmarshal_error args env API errText h2 hkey response hapi hcode err hjson]
            exact ⟨rfl, Or.inl ⟨rfl, rfl, by simp⟩⟩
          | ok resp =>
            by_cases hempty : resp.APIKey = ""
            · rw [main_key_missing args env API errText h2 hkey response hapi hcode resp hjson
                hempty]
              exact ⟨rfl, Or.inl ⟨rfl, rfl, by simp⟩⟩
            · rw [main_success args env API errText h2 hkey response hapi hcode resp hjson
                hempty]
              exact ⟨rfl, Or.inr ⟨response, resp, rfl, hcode, hjson, ⟨rfl, rfl, hempty⟩, rfl⟩⟩
        · rw [main_status args env API errText h2 hkey response hapi hcode]
          exact ⟨rfl, Or.inl ⟨rfl, rfl, by simp⟩⟩

theorem oneNonEmptyLine_println (key : String) :
    oneNonEmptyLine (key ++ "\n") = true ↔ key ≠ "" ∧ '\n' ∉ key.toList := by
  have hdata : (key ++ "\n").toList.reverse = '\n' :: key.toList.reverse := by
    show (key.data ++ ['\n']).reverse = _
    simp
  unfold oneNonEmptyLine
  rw [hdata]
  have hne : key ≠ "" ↔ key.toList ≠ [] := by
    constructor
    · intro h h0; apply h; cases key; simp_all [String.toList]
    · intro h h0; apply h; subst h0; rfl
  simp [hne]

/-! ## The scanner reads back what `Marshal` writes -/

theorem hexVal_hexDigit : ∀ n, n < 16 → hexVal (hexDigit n) = some n := by decide

theorem run_cons (s : Scanner) (c : Char) (cs : List Char) :
    s.run (c :: cs) = (s.feed c).bind (fun s1 => s1.run cs) := by
  cases h : s.feed c <;> simp [Scanner.run, h]

theorem feed_inString_plain (acc : List Char) (ps : List Frame) (c : Char)
    (h1 : c ≠ '"') (h2 : c ≠ '\\') (h3 : ¬ c.toNat < 0x20) :
    Scanner.feed ⟨.inString acc none, ps⟩ c = some ⟨.inString (c :: acc) none, ps⟩ := by
  simp [Scanner.feed, h1, h2, h3, flush]

theorem run_simple_escape (acc : List Char) (ps : List Frame) (e c : Char) (rest : List Char)
    (h : Scanner.feed ⟨.inStringEsc acc none, ps⟩ e = some ⟨.inString (c :: acc) none, ps⟩) :
    Scanner.run ⟨.inString acc none, ps⟩ ('\\' :: e :: rest) =
      Scanner.run ⟨.inString (c :: acc) none, ps⟩ rest := by
  have h0 : Scanner.feed ⟨.inString acc none, ps⟩ '\\' = some ⟨.inStringEsc acc none, ps⟩ := by
    simp [Scanner.feed]
  rw [run_cons, h0, Option.some_bind, run_cons, h, Option.some_bind]

theorem feed_escU_next (acc : List Char) (ps : List Frame) (n v : Nat) (x : Char) (vx : Nat)
    (hx : hexVal x = some vx) (hn : n < 3) :
    Scanner.feed ⟨.inStringEscU acc none n v, ps⟩ x =
      some ⟨.inStringEscU acc none (n + 1) (v * 16 + vx), ps⟩ := by
  simp [Scanner.feed, hx, hn]

theorem feed_escU_last (acc : List Char) (ps : List Frame) (v : Nat) (x : Char) (vx : Nat)
    (hx : hexVal x = some vx) :
    Scanner.feed ⟨.inStringEscU acc none 3 v, ps⟩ x =
      some ⟨endEscU acc none (v * 16 + vx), ps⟩ := by
  simp [Scanner.feed, hx]

theorem run_u_escape (acc : List Char) (ps : List Frame) (a b c d : Char) (va vb vc vd : Nat)
    (rest : List Char)
    (ha : hexVal a = some va) (hb : hexVal b = some vb) (hc : hexVal c = some vc)
    (hd : hexVal d = some vd) :
    Scanner.run ⟨.inString acc none, ps⟩ ('\\' :: 'u' :: a :: b :: c :: d :: rest) =
      Scanner.run ⟨endEscU acc none ((((0 * 16 + va) * 16 + vb) * 16 + vc) * 16 + vd), ps⟩ rest := by
  have h0 : Scanner.feed ⟨.inString acc none, ps⟩ '\\' = some ⟨.inStringEsc acc none, ps⟩ := by
    simp [Scanner.feed]
  have h1 : Scanner.feed ⟨.inStringEsc acc none, ps⟩ 'u' = some ⟨.inStringEscU acc none 0 0, ps⟩ := by
    simp [Scanner.feed]
  rw [run_cons, h0, Option.some_bind, run_cons, h1, Option.some_bind,
    run_cons, feed_escU_next acc ps 0 0 a va ha (by decide), Option.some_bind,
    run_cons, feed_escU_next acc ps 1 _ b vb hb (by decide), Option.some_bind,
    run_cons, feed_escU_next acc ps 2 _ c vc hc (by decide), Option.some_bind,
    run_cons, feed_escU_last acc ps _ d vd hd, Option.some_bind]

theorem run_appendChar (c : Char) (acc : List Char) (ps : List Frame) (rest : List Char) :
    Scanner.run ⟨.inString acc none, ps⟩ (appendChar c ++ rest) =
      Scanner.run ⟨.inString (c :: acc) none, ps⟩ rest := by
  unfold appendChar
  split_ifs with h1 h2 h3 h4 h5 h6 h7 h8 h9
  · -- an ASCII character that is copied
    simp only [htmlSafe, Bool.and_eq_true, decide_eq_true_eq, bne_iff_ne, ne_eq] at h2
    obtain ⟨⟨⟨⟨⟨⟨hlo, _⟩, hq⟩, _⟩, _⟩, _⟩, hb⟩ := h2
    rw [List.singleton_append, run_cons, feed_inString_plain acc ps c hq hb (by omega),
      Option.some_bind]
  · rcases h3 with h | h <;> subst h <;>
      exact run_simple_escape acc ps _ _ rest (by simp [Scanner.feed, flush])
  · subst h4; exact run_simple_escape acc ps _ _ rest (by simp [Scanner.feed, flush])
  · subst h5; exact run_simple_escape acc ps _ _ rest (by simp [Scanner.feed, flush])
  · subst h6; exact run_simple_escape acc ps _ _ rest (by simp [Scanner.feed, flush])
  · subst h7; exact run_simple_escape acc ps _ _ rest (by simp [Scanner.feed, flush])
  · subst h8; exact run_simple_escape acc ps _ _ rest (by simp [Scanner.feed, flush])
  · -- a control character or one of the HTML characters
    have hhi := hexVal_hexDigit (c.toNat / 16) (by omega)
    have hlo := hexVal_hexDigit (c.toNat % 16) (by omega)
    have hz : hexVal '0' = some 0 := by decide
    show Scanner.run _ ('\\' :: 'u' :: '0' :: '0' :: hexDigit (c.toNat / 16) ::
      hexDigit (c.toNat % 16) :: rest) = _
    rw [run_u_escape acc ps _ _ _ _ 0 0 _ _ rest hz hz hhi hlo]
    have hv : (((0 * 16 + 0) * 16 + 0) * 16 + c.toNat / 16) * 16 + c.toNat % 16 = c.toNat := by
      omega
    rw [hv]
    have hs : isSurrogate c.toNat = false := by
      simp [isSurrogate]; omega
    simp only [endEscU, hs]
    simp
  · -- the line and paragraph separators
    rcases h9 with h | h <;> subst h
    · exact run_u_escape acc ps '2' '0' '2' '8' 2 0 2 8 rest (by decide) (by decide)
        (by decide) (by decide)
    · exact run_u_escape acc ps '2' '0' '2' '9' 2 0 2 9 rest (by decide) (by decide)
        (by decide) (by decide)
  · -- any other character is copied
    have hq : c ≠ '"' := by rintro rfl; exact h1 (by decide)
    have hb : c ≠ '\\' := by rintro rfl; exact h1 (by decide)
    rw [List.singleton_append, run_cons, feed_inString_plain acc ps c hq hb (by omega),
      Option.some_bind]

theorem run_appendRune (r : Option Char) (acc : List Char) (ps : List Frame)
    (rest : List Char) :
    Scanner.run ⟨.inString acc none, ps⟩ (appendRune r ++ rest) =
      Scanner.run ⟨.inString (r.getD (Char.ofNat 0xFFFD) :: acc) none, ps⟩ rest := by
  cases r with
  | some c => exact run_appendChar c acc ps rest
  | none =>
    exact run_u_escape acc ps 'f' 'f' 'f' 'd' 15 15 15 13 rest (by decide) (by decide)
      (by decide) (by decide)

theorem run_escape (rs : List (Option Char)) (acc : List Char) (ps : List Frame)
    (rest : List Char) :
    Scanner.run ⟨.inString acc none, ps⟩ (escape rs ++ rest) =
      Scanner.run
        ⟨.inString ((rs.map (fun r => r.getD (Char.ofNat 0xFFFD))).reverse ++ acc) none, ps⟩
        rest := by
  induction rs generalizing acc with
  | nil => rfl
  | cons r rs ih =>
    rw [escape, List.append_assoc, run_appendRune, ih]
    simp

theorem run_appendString (s : GoString) (ps : List Frame) (rest : List Char) :
    Scanner.run ⟨.inString [] none, ps⟩ (escape (runes s) ++ '"' :: rest) =
      Scanner.run ⟨.endValue (.string (textOf s)), ps⟩ rest := by
  rw [run_escape, run_cons]
  simp [Scanner.feed, flush, textOf]

theorem run_more_elems (xs : List GoString) (v : JSONValue) (done : List JSONValue)
    (ps : List Frame) (rest : List Char) :
    Scanner.run ⟨.endValue v, .arrayValue done :: ps⟩ (appendElems false xs ++ ']' :: rest) =
      Scanner.run
        ⟨.endValue (.array ((v :: done).reverse ++ xs.map (fun x => .string (textOf x)))), ps⟩
        rest := by
  induction xs generalizing v done with
  | nil =>
    have h : Scanner.feed ⟨.endValue v, .arrayValue done :: ps⟩ ']' =
        some ⟨.endValue (.array (v :: done).reverse), ps⟩ := by
      simp [Scanner.feed, stateEndValue, isSpace]
    show Scanner.run _ (']' :: rest) = _
    rw [run_cons, h, Option.some_bind]
    simp
  | cons x xs ih =>
    have h1 : Scanner.feed ⟨.endValue v, .arrayValue done :: ps⟩ ',' =
        some ⟨.beginValue, .arrayValue (v :: done) :: ps⟩ := by
      simp [Scanner.feed, stateEndValue, isSpace]
    have h2 : Scanner.feed ⟨.beginValue, .arrayValue (v :: done) :: ps⟩ '"' =
        some ⟨.inString [] none, .arrayValue (v :: done) :: ps⟩ := by
      simp [Scanner.feed, stateBeginValue, isSpace]
    show Scanner.run _ (',' :: '"' :: ((escape (runes x) ++ ['"']) ++ appendElems false xs ++
      ']' :: rest)) = _
    rw [run_cons, h1, Option.some_bind, run_cons, h2, Option.some_bind]
    have hl : (escape (runes x) ++ ['"']) ++ appendElems false xs ++ ']' :: rest =
        escape (runes x) ++ '"' :: (appendElems false xs ++ ']' :: rest) := by simp
    rw [hl, run_appendString, ih]
    simp

theorem run_appendArray (xs : List GoString) (ps : List Frame) (rest : List Char)
    (hdepth : ps.length + 1 ≤ maxNestingDepth) :
    Scanner.run ⟨.beginValue, ps⟩ (appendArray xs ++ rest) =
      Scanner.run ⟨.endValue (.array (xs.map (fun x => .string (textOf x)))), ps⟩ rest := by
  have h0 : Scanner.feed ⟨.beginValue, ps⟩ '[' =
      some ⟨.beginValueOrEmpty, .arrayValue [] :: ps⟩ := by
    simp [Scanner.feed, stateBeginValue, isSpace, pushParseState, hdepth]
  cases xs with
  | nil =>
    have h1 : Scanner.feed ⟨.beginValueOrEmpty, .arrayValue [] :: ps⟩ ']' =
        some ⟨.endValue (.array []), ps⟩ := by
      simp [Scanner.feed, isSpace]
    show Scanner.run _ ('[' :: ']' :: rest) = _
    rw [run_cons, h0, Option.some_bind, run_cons, h1, Option.some_bind]
    rfl
  | cons x xs =>
    have h1 : Scanner.feed ⟨.beginValueOrEmpty, .arrayValue [] :: ps⟩ '"' =
        some ⟨.inString [] none, .arrayValue [] :: ps⟩ := by
      simp [Scanner.feed, stateBeginValue, isSpace]
    have hl : appendArray (x :: xs) ++ rest =
        '[' :: '"' :: (escape (runes x) ++ '"' :: (appendElems false xs ++ ']' :: rest)) := by
      simp [appendArray, appendElems, appendString]
    rw [hl, run_cons, h0, Option.some_bind, run_cons, h1, Option.some_bind, run_appendString,
      run_more_elems]
    simp

theorem run_requestBody (name : GoString) (scopes : List GoString) :
    Scanner.run Scanner.init
        ("\x7b\"name\":".toList ++ appendString name ++ scopesPart scopes) =
      some ⟨.endValue (.object [("name", .string (textOf name)),
        ("scopes", .array (scopes.map (fun x => .string (textOf x))))]), []⟩ := by
  have hl : "\x7b\"name\":".toList ++ appendString name ++ scopesPart scopes =
      '{' :: '"' :: 'n' :: 'a' :: 'm' :: 'e' :: '"' :: ':' :: '"' ::
        (escape (runes name) ++ '"' :: (',' :: '"' :: 's' :: 'c' :: 'o' :: 'p' :: 'e' :: 's' ::
          '"' :: ':' :: (appendArray scopes ++ ['}']))) := by
    simp [appendString, scopesPart]
  have hpre : ∀ cs, Scanner.run Scanner.init
      ('{' :: '"' :: 'n' :: 'a' :: 'm' :: 'e' :: '"' :: ':' :: '"' :: cs) =
      Scanner.run ⟨.inString [] none, [.objectValue [] "name"]⟩ cs := by
    intro cs; rfl
  have hmid : ∀ (v : JSONValue) cs, Scanner.run ⟨.endValue v, [.objectValue [] "name"]⟩
      (',' :: '"' :: 's' :: 'c' :: 'o' :: 'p' :: 'e' :: 's' :: '"' :: ':' :: cs) =
      Scanner.run ⟨.beginValue, [.objectValue [("name", v)] "scopes"]⟩ cs := by
    intro v cs; rfl
  have hend : ∀ (v w : JSONValue), Scanner.run ⟨.endValue w, [.objectValue [("name", v)] "scopes"]⟩
      ['}'] = some ⟨.endValue (.object [("name", v), ("scopes", w)]), []⟩ := by
    intro v w; rfl
  rw [hl, hpre, run_appendString, hmid, run_appendArray _ _ _ (by simp [maxNestingDepth]), hend]

/-! ## UTF-8: decoding undoes encoding -/

theorem char_bounds (c : Char) :
    c.toNat < 0xD800 ∨ (0xDFFF < c.toNat ∧ c.toNat < 0x110000) := by
  have h := c.valid
  simp only [UInt32.isValidChar, Nat.isValidChar] at h
  exact h

theorem byte_val (n : Nat) (h : n < 256) : (byte n).val = n := by
  show n % 256 = n
  omega

theorem decodeRune_one (b0 : Byte) (rest : List Byte) (h0 : b0.val < 0x80) :
    decodeRune (b0 :: rest) = (some (Char.ofNat b0.val), 1) := by
  simp only [decodeRune, if_pos h0]

theorem decodeRune_two (b0 b1 : Byte) (rest : List Byte)
    (h0 : 0xC2 ≤ b0.val ∧ b0.val ≤ 0xDF) (h1 : isCont b1 = true) :
    decodeRune (b0 :: b1 :: rest) =
      (some (Char.ofNat ((b0.val - 0xC0) * 64 + (b1.val - 0x80))), 2) := by
  have f1 : ¬ b0.val < 0x80 := by omega
  simp only [decodeRune, if_neg f1, if_pos h0, h1, if_true]

theorem decodeRune_three (b0 b1 b2 : Byte) (rest : List Byte)
    (h0 : 0xE0 ≤ b0.val ∧ b0.val ≤ 0xEF)
    (h1 : (if b0.val = 0xE0 then 0xA0 else 0x80) ≤ b1.val ∧
      b1.val ≤ (if b0.val = 0xED then 0x9F else 0xBF) ∧ isCont b2 = true) :
    decodeRune (b0 :: b1 :: b2 :: rest) =
      (some (Char.ofNat ((b0.val - 0xE0) * 4096 + (b1.val - 0x80) * 64 + (b2.val - 0x80))),
        3) := by
  have f1 : ¬ b0.val < 0x80 := by omega
  have f2 : ¬ (0xC2 ≤ b0.val ∧ b0.val ≤ 0xDF) := by omega
  simp only [decodeRune, if_neg f1, if_neg f2, if_pos h0, if_pos h1]

theorem decodeRune_four (b0 b1 b2 b3 : Byte) (rest : List Byte)
    (h0 : 0xF0 ≤ b0.val ∧ b0.val ≤ 0xF4)
    (h1 : (if b0.val = 0xF0 then 0x90 else 0x80) ≤ b1.val ∧
      b1.val ≤ (if b0.val = 0xF4 then 0x8F else 0xBF) ∧ isCont b2 = true ∧ isCont b3 = true) :
    decodeRune (b0 :: b1 :: b2 :: b3 :: rest) =
      (some (Char.ofNat ((b0.val - 0xF0) * 262144 + (b1.val - 0x80) * 4096 +
        (b2.val - 0x80) * 64 + (b3.val - 0x80))), 4) := by
  have f1 : ¬ b0.val < 0x80 := by omega
  have f2 : ¬ (0xC2 ≤ b0.val ∧ b0.val ≤ 0xDF) := by omega
  have f3 : ¬ (0xE0 ≤ b0.val ∧ b0.val ≤ 0xEF) := by omega
  simp only [decodeRune, if_neg f1, if_neg f2, if_neg f3, if_pos h0, if_pos h1]

theorem isCont_byte (n : Nat) (h : n < 64) : isCont (byte (0x80 + n)) = true := by
  have e := byte_val (0x80 + n) (by omega)
  simp only [isCont, e, Bool.and_eq_true, decide_eq_true_eq]
  omega

theorem decodeRune_encodeRune (c : Char) (rest : List Byte) :
    decodeRune (encodeRune c ++ rest) = (some c, (encodeRune c).length) := by
  have hc := char_bounds c
  have hback : ∀ n, n = c.toNat → Char.ofNat n = c := by
    intro n hn; subst hn; exact Char.ofNat_toNat c
  unfold encodeRune
  split_ifs with h1 h2 h3
  · have e0 := byte_val c.toNat (by omega)
    rw [List.singleton_append, decodeRune_one _ _ (by omega), hback _ e0]
    rfl
  · have e0 := byte_val (0xC0 + c.toNat / 64) (by omega)
    have e1 := byte_val (0x80 + c.toNat % 64) (by omega)
    show decodeRune (_ :: _ :: rest) = _
    rw [decodeRune_two _ _ _ (by omega) (isCont_byte _ (by omega)), hback _ (by omega)]
    rfl
  · have e0 := byte_val (0xE0 + c.toNat / 4096) (by omega)
    have e1 := byte_val (0x80 + c.toNat / 64 % 64) (by omega)
    have e2 := byte_val (0x80 + c.toNat % 64) (by omega)
    show decodeRune (_ :: _ :: _ :: rest) = _
    rw [decodeRune_three _ _ _ _ (by omega)
      ⟨by split_ifs <;> omega, by split_ifs <;> omega, isCont_byte _ (by omega)⟩,
      hback _ (by omega)]
    rfl
  · have e0 := byte_val (0xF0 + c.toNat / 262144) (by omega)
    have e1 := byte_val (0x80 + c.toNat / 4096 % 64) (by omega)
    have e2 := byte_val (0x80 + c.toNat / 64 % 64) (by omega)
    have e3 := byte_val (0x80 + c.toNat % 64) (by omega)
    show decodeRune (_ :: _ :: _ :: _ :: rest) = _
    rw [decodeRune_four _ _ _ _ _ (by omega)
      ⟨by split_ifs <;> omega, by split_ifs <;> omega, isCont_byte _ (by omega),
        isCont_byte _ (by omega)⟩,
      hback _ (by omega)]
    rfl

theorem runesFrom_skip (pre rest : List Byte) :
    runesFrom pre.length (pre ++ rest) = runesFrom 0 rest := by
  induction pre with
  | nil => rfl
  | cons b pre ih => exact ih

theorem encodeRune_ne_nil (c : Char) : ∃ b tail, encodeRune c = b :: tail := by
  unfold encodeRune
  split_ifs <;> exact ⟨_, _, rfl⟩

theorem runes_encodeRune (c : Char) (rest : List Byte) :
    runes (encodeRune c ++ rest) = some c :: runes rest := by
  have hd := decodeRune_encodeRune c rest
  obtain ⟨b, tail, he⟩ := encodeRune_ne_nil c
  rw [he] at hd ⊢
  show runesFrom 0 (b :: (tail ++ rest)) = _
  have hd1 : decodeRune (b :: (tail ++ rest)) = (some c, tail.length + 1) := hd
  simp only [runesFrom, hd1, Nat.add_sub_cancel]
  rw [runesFrom_skip]
  rfl

theorem runes_utf8Chars (cs : List Char) : runes (utf8Chars cs) = cs.map some := by
  induction cs with
  | nil => rfl
  | cons c cs ih => rw [utf8Chars, runes_encodeRune, ih]; rfl

theorem textOf_utf8 (s : String) : textOf (utf8 s) = s := by
  unfold textOf utf8
  rw [runes_utf8Chars]
  simp [List.map_map, Function.comp_def]

theorem parseJSON_requestBody (name : GoString) :
    parseJSON (requestBody name) =
      some (.object [("name", .string (textOf name)),
        ("scopes", .array (definedScopes.map .string))]) := by
  unfold parseJSON requestBody
  show (match Scanner.run Scanner.init
      ("\x7b\"name\":".toList ++ appendString name ++ scopesPart (definedScopes.map utf8)) with
    | none => none
    | some s => s.eof) = _
  rw [run_requestBody]
  have hs : (definedScopes.map utf8).map (fun x => JSONValue.string (textOf x)) =
      definedScopes.map .string := by
    rw [List.map_map]
    apply List.map_congr_left
    intro s _
    simp [textOf_utf8]
  rw [hs]
  rfl

/-! ## The scanner accepts the grammar -/

theorem run_append (s : Scanner) (a b : List Char) :
    s.run (a ++ b) = (s.run a).bind (fun s1 => s1.run b) := by
  induction a generalizing s with
  | nil => rfl
  | cons c a ih =>
    rw [List.cons_append, run_cons, run_cons]
    cases h : s.feed c with
    | none => rfl
    | some s1 => simp only [Option.some_bind]; exact ih s1

theorem feed_space (st : Step) (ps : List Frame) (c : Char) (hst : skipsSpace st)
    (hc : isSpace c = true) : Scanner.feed ⟨st, ps⟩ c = some ⟨st, ps⟩ := by
  cases st <;> simp [skipsSpace] at hst <;> simp [Scanner.feed, hc]
  cases ps <;> simp [stateEndValue, hc]

theorem run_skip (ws : List Char) (st : Step) (ps : List Frame) (tail : List Char)
    (hws : isWS ws = true) (hst : skipsSpace st) :
    Scanner.run ⟨st, ps⟩ (ws ++ tail) = Scanner.run ⟨st, ps⟩ tail := by
  induction ws with
  | nil => rfl
  | cons c ws ih =>
    simp only [isWS, List.all_cons, Bool.and_eq_true] at hws
    rw [List.cons_append, run_cons, feed_space st ps c hst hws.1, Option.some_bind]
    exact ih hws.2

theorem flush_reverse (acc : List Char) (pending : Option Nat) :
    (flush acc pending).reverse = acc.reverse ++ flush [] pending := by
  cases pending <;> simp [flush]

theorem run_unicode (acc : List Char) (pending : Option Nat) (ps : List Frame)
    (a b c d : Char) (rest : List Char)
    (ha : (hexVal a).isSome = true) (hb : (hexVal b).isSome = true)
    (hc : (hexVal c).isSome = true) (hd : (hexVal d).isSome = true) :
    Scanner.run ⟨.inString acc pending, ps⟩ ('\\' :: 'u' :: a :: b :: c :: d :: rest) =
      Scanner.run ⟨endEscU acc pending (hex4 a b c d), ps⟩ rest := by
  obtain ⟨va, hva⟩ := Option.isSome_iff_exists.mp ha
  obtain ⟨vb, hvb⟩ := Option.isSome_iff_exists.mp hb
  obtain ⟨vc, hvc⟩ := Option.isSome_iff_exists.mp hc
  obtain ⟨vd, hvd⟩ := Option.isSome_iff_exists.mp hd
  have h0 : Scanner.feed ⟨.inString acc pending, ps⟩ '\\' =
      some ⟨.inStringEsc acc pending, ps⟩ := by
    simp [Scanner.feed]
  have h1 : Scanner.feed ⟨.inStringEsc acc pending, ps⟩ 'u' =
      some ⟨.inStringEscU acc pending 0 0, ps⟩ := by
    simp [Scanner.feed]
  have h2 : Scanner.feed ⟨.inStringEscU acc pending 0 0, ps⟩ a =
      some ⟨.inStringEscU acc pending 1 va, ps⟩ := by
    simp [Scanner.feed, hva]
  have h3 : Scanner.feed ⟨.inStringEscU acc pending 1 va, ps⟩ b =
      some ⟨.inStringEscU acc pending 2 (va * 16 + vb), ps⟩ := by
    simp [Scanner.feed, hvb]
  have h4 : Scanner.feed ⟨.inStringEscU acc pending 2 (va * 16 + vb), ps⟩ c =
      some ⟨.inStringEscU acc pending 3 ((va * 16 + vb) * 16 + vc), ps⟩ := by
    simp [Scanner.feed, hvc]
  have h5 : Scanner.feed ⟨.inStringEscU acc pending 3 ((va * 16 + vb) * 16 + vc), ps⟩ d =
      some ⟨endEscU acc pending (hex4 a b c d), ps⟩ := by
    simp [Scanner.feed, hvd, hex4, hva, hvb, hvc]
  rw [run_cons, h0, Option.some_bind, run_cons, h1, Option.some_bind, run_cons, h2,
    Option.some_bind, run_cons, h3, Option.some_bind, run_cons, h4, Option.some_bind,
    run_cons, h5, Option.some_bind]

theorem run_items (items : List StringItem) (acc : List Char) (pending : Option Nat)
    (ps : List Frame) (rest : List Char) (hvalid : items.all StringItem.valid = true) :
    Scanner.run ⟨.inString acc pending, ps⟩ (renderItems items ++ '"' :: rest) =
      Scanner.run
        ⟨.endValue (.string (String.mk (acc.reverse ++ decodeItems pending items))), ps⟩
        rest := by
  induction items generalizing acc pending with
  | nil =>
    show Scanner.run _ ('"' :: rest) = _
    rw [run_cons]
    simp [Scanner.feed, flush_reverse, decodeItems]
  | cons item items ih =>
    simp only [List.all_cons, Bool.and_eq_true] at hvalid
    obtain ⟨hitem, hrest⟩ := hvalid
    cases item with
    | plain c =>
      simp only [StringItem.valid, Bool.and_eq_true, bne_iff_ne, ne_eq,
        decide_eq_true_eq] at hitem
      obtain ⟨⟨hq, hb⟩, hlo⟩ := hitem
      have hf : Scanner.feed ⟨.inString acc pending, ps⟩ c =
          some ⟨.inString (c :: flush acc pending) none, ps⟩ := by
        have : ¬ c.toNat < 0x20 := by omega
        simp [Scanner.feed, hq, hb, this]
      show Scanner.run _ (c :: (renderItems items ++ '"' :: rest)) = _
      rw [run_cons, hf, Option.some_bind, ih _ _ hrest]
      simp [decodeItems, flush_reverse]
    | escaped c =>
      have h0 : Scanner.feed ⟨.inString acc pending, ps⟩ '\\' =
          some ⟨.inStringEsc acc pending, ps⟩ := by
        simp [Scanner.feed]
      have hf : Scanner.feed ⟨.inStringEsc acc pending, ps⟩ c =
          some ⟨.inString (unescape c :: flush acc pending) none, ps⟩ := by
        simp only [StringItem.valid, List.contains_cons, List.contains_nil, Bool.or_false,
          Bool.or_eq_true, beq_iff_eq] at hitem
        rcases hitem with h | h | h | h | h | h | h | h <;> subst h <;>
          simp [Scanner.feed, unescape]
      show Scanner.run _ ('\\' :: c :: (renderItems items ++ '"' :: rest)) = _
      rw [run_cons, h0, Option.some_bind, run_cons, hf, Option.some_bind, ih _ _ hrest]
      simp [decodeItems, flush_reverse]
    | unicode a b c d =>
      simp only [StringItem.valid, Bool.and_eq_true] at hitem
      obtain ⟨⟨⟨ha, hb⟩, hc⟩, hd⟩ := hitem
      show Scanner.run _ ('\\' :: 'u' :: a :: b :: c :: d ::
        (renderItems items ++ '"' :: rest)) = _
      rw [run_unicode acc pending ps a b c d _ ha hb hc hd]
      cases pending with
      | none =>
        cases hs : isSurrogate (hex4 a b c d) with
        | true =>
          simp only [endEscU, hs, if_true, decodeItems]
          rw [ih _ _ hrest]
        | false =>
          simp only [endEscU, hs, Bool.false_eq_true, if_false, decodeItems]
          rw [ih _ _ hrest]
          simp
      | some hi =>
        by_cases hp : 0xD800 ≤ hi ∧ hi < 0xDC00 ∧ 0xDC00 ≤ hex4 a b c d ∧ hex4 a b c d < 0xE000
        · simp only [endEscU, if_pos hp, decodeItems]
          rw [ih _ _ hrest]
          simp
        · cases hs : isSurrogate (hex4 a b c d) with
          | true =>
            simp only [endEscU, if_neg hp, hs, if_true, decodeItems]
            rw [ih _ _ hrest]
            simp
          | false =>
            simp only [endEscU, if_neg hp, hs, Bool.false_eq_true, if_false, decodeItems]
            rw [ih _ _ hrest]
            simp

theorem run_digits_one (ds lit : List Char) (ps : List Frame) (tail : List Char)
    (hds : ds.all isDigit = true) :
    Scanner.run ⟨.one lit, ps⟩ (ds ++ tail) = Scanner.run ⟨.one (ds.reverse ++ lit), ps⟩ tail := by
  induction ds generalizing lit with
  | nil => rfl
  | cons d ds ih =>
    simp only [List.all_cons, Bool.and_eq_true] at hds
    rw [List.cons_append, run_cons]
    have hf : Scanner.feed ⟨.one lit, ps⟩ d = some ⟨.one (d :: lit), ps⟩ := by
      simp [Scanner.feed, hds.1]
    rw [hf, Option.some_bind, ih _ hds.2]
    simp

theorem run_digits_dot0 (ds lit : List Char) (ps : List Frame) (tail : List Char)
    (hds : ds.all isDigit = true) :
    Scanner.run ⟨.dot0 lit, ps⟩ (ds ++ tail) =
      Scanner.run ⟨.dot0 (ds.reverse ++ lit), ps⟩ tail := by
  induction ds generalizing lit with
  | nil => rfl
  | cons d ds ih =>
    simp only [List.all_cons, Bool.and_eq_true] at hds
    rw [List.cons_append, run_cons]
    have hf : Scanner.feed ⟨.dot0 lit, ps⟩ d = some ⟨.dot0 (d :: lit), ps⟩ := by
      simp [Scanner.feed, hds.1]
    rw [hf, Option.some_bind, ih _ hds.2]
    simp

theorem run_digits_e0 (ds lit : List Char) (ps : List Frame) (tail : List Char)
    (hds : ds.all isDigit = true) :
    Scanner.run ⟨.e0 lit, ps⟩ (ds ++ tail) = Scanner.run ⟨.e0 (ds.reverse ++ lit), ps⟩ tail := by
  induction ds generalizing lit with
  | nil => rfl
  | cons d ds ih =>
    simp only [List.all_cons, Bool.and_eq_true] at hds
    rw [List.cons_append, run_cons]
    have hf : Scanner.feed ⟨.e0 lit, ps⟩ d = some ⟨.e0 (d :: lit), ps⟩ := by
      simp [Scanner.feed, hds.1]
    rw [hf, Option.some_bind, ih _ hds.2]
    simp

theorem feed_delim_afterDigits (st : Step) (lit : List Char) (ps : List Frame) (c : Char)
    (hst : afterDigits lit st) (hc : isDelim c) :
    Scanner.feed ⟨st, ps⟩ c = stateEndValue (.number (String.mk lit.reverse)) ps c := by
  cases st <;> simp [afterDigits] at hst <;> subst hst <;>
    rcases hc with h | h | h | h | h | h | h <;> subst h <;>
    simp [Scanner.feed, endNumber, isDigit]

theorem feed_delim_e0 (lit : List Char) (ps : List Frame) (c : Char) (hc : isDelim c) :
    Scanner.feed ⟨.e0 lit, ps⟩ c = stateEndValue (.number (String.mk lit.reverse)) ps c := by
  rcases hc with h | h | h | h | h | h | h <;> subst h <;>
    simp [Scanner.feed, endNumber, isDigit]

theorem isDigits_cons (ds : List Char) (h : isDigits ds = true) :
    ∃ d rest, ds = d :: rest ∧ isDigit d = true ∧ rest.all isDigit = true := by
  cases ds with
  | nil => simp [isDigits] at h
  | cons d rest =>
    simp only [isDigits, List.all_cons, Bool.and_eq_true] at h
    exact ⟨d, rest, rfl, h.2.1, h.2.2⟩

theorem isDigit_not_sign (d : Char) (h : isDigit d = true) : d ≠ '+' ∧ d ≠ '-' := by
  constructor <;> rintro rfl <;> simp [isDigit] at h

theorem run_exp_digits (lit0 ds : List Char) (ps : List Frame) (c : Char)
    (rest : List Char) (st : Step)
    (hst : st = .e lit0 ∨ st = .eSign lit0) (hds : isDigits ds = true) (hc : isDelim c) :
    Scanner.run ⟨st, ps⟩ (ds ++ c :: rest) =
      (stateEndValue (.number (String.mk (lit0.reverse ++ ds))) ps c).bind
        (fun s => s.run rest) := by
  obtain ⟨d, ds1, rfl, hd, hds1⟩ := isDigits_cons ds hds
  have hns := isDigit_not_sign d hd
  have hf : Scanner.feed ⟨st, ps⟩ d = some ⟨.e0 (d :: lit0), ps⟩ := by
    rcases hst with h | h <;> subst h <;> simp [Scanner.feed, hd, hns.1, hns.2]
  rw [List.cons_append, run_cons, hf, Option.some_bind, run_digits_e0 _ _ _ _ hds1, run_cons,
    feed_delim_e0 _ _ _ hc]
  simp

theorem run_exp (exp : Option (Char × Option Char × List Char)) (st : Step) (lit : List Char)
    (ps : List Frame) (c : Char) (rest : List Char)
    (hst : afterDigits lit st) (hv : validExp exp = true) (hc : isDelim c) :
    Scanner.run ⟨st, ps⟩ (renderExp exp ++ c :: rest) =
      (stateEndValue (.number (String.mk (lit.reverse ++ renderExp exp))) ps c).bind
        (fun s => s.run rest) := by
  cases exp with
  | none =>
    show Scanner.run _ (c :: rest) = _
    rw [run_cons, feed_delim_afterDigits st lit ps c hst hc]
    simp [renderExp]
  | some x =>
    obtain ⟨e, sign, ds⟩ := x
    simp only [validExp, Bool.and_eq_true, Bool.or_eq_true, decide_eq_true_eq,
      beq_iff_eq] at hv
    obtain ⟨⟨he, hsign⟩, hds⟩ := hv
    have hfe : Scanner.feed ⟨st, ps⟩ e = some ⟨.e (e :: lit), ps⟩ := by
      cases st <;> simp [afterDigits] at hst <;> subst hst <;>
        rcases he with h | h <;> subst h <;> simp [Scanner.feed, isDigit]
    show Scanner.run _ (e :: ((sign.toList ++ ds) ++ c :: rest)) = _
    rw [run_cons, hfe, Option.some_bind]
    rcases hsign with (h | h) | h <;> subst h
    · show Scanner.run _ (ds ++ c :: rest) = _
      rw [run_exp_digits (e :: lit) ds ps c rest _ (Or.inl rfl) hds hc]
      simp [renderExp]
    · show Scanner.run _ ('+' :: (ds ++ c :: rest)) = _
      have hf : Scanner.feed ⟨.e (e :: lit), ps⟩ '+' = some ⟨.eSign ('+' :: e :: lit), ps⟩ := by
        simp [Scanner.feed]
      rw [run_cons, hf, Option.some_bind,
        run_exp_digits ('+' :: e :: lit) ds ps c rest _ (Or.inr rfl) hds hc]
      simp [renderExp]
    · show Scanner.run _ ('-' :: (ds ++ c :: rest)) = _
      have hf : Scanner.feed ⟨.e (e :: lit), ps⟩ '-' = some ⟨.eSign ('-' :: e :: lit), ps⟩ := by
        simp [Scanner.feed]
      rw [run_cons, hf, Option.some_bind,
        run_exp_digits ('-' :: e :: lit) ds ps c rest _ (Or.inr rfl) hds hc]
      simp [renderExp]

theorem run_frac (frac : Option (List Char)) (exp : Option (Char × Option Char × List Char))
    (st : Step) (lit : List Char) (ps : List Frame) (c : Char) (rest : List Char)
    (hst : st = .zero lit ∨ st = .one lit) (hvf : validFrac frac = true)
    (hve : validExp exp = true) (hc : isDelim c) :
    Scanner.run ⟨st, ps⟩ (renderFrac frac ++ (renderExp exp ++ c :: rest)) =
      (stateEndValue (.number (String.mk (lit.reverse ++ (renderFrac frac ++ renderExp exp))))
        ps c).bind (fun s => s.run rest) := by
  cases frac with
  | none =>
    show Scanner.run _ (renderExp exp ++ c :: rest) = _
    have ha : afterDigits lit st := by rcases hst with h | h <;> subst h <;> rfl
    rw [run_exp exp st lit ps c rest ha hve hc]
    simp [renderFrac]
  | some ds =>
    obtain ⟨d, ds1, rfl, hd, hds1⟩ := isDigits_cons ds hvf
    have hf1 : Scanner.feed ⟨st, ps⟩ '.' = some ⟨.dot ('.' :: lit), ps⟩ := by
      rcases hst with h | h <;> subst h <;> simp [Scanner.feed, isDigit]
    have hf2 : Scanner.feed ⟨.dot ('.' :: lit), ps⟩ d = some ⟨.dot0 (d :: '.' :: lit), ps⟩ := by
      simp [Scanner.feed, hd]
    show Scanner.run _ ('.' :: d :: (ds1 ++ (renderExp exp ++ c :: rest))) = _
    rw [run_cons, hf1, Option.some_bind, run_cons, hf2, Option.some_bind,
      run_digits_dot0 _ _ _ _ hds1,
      run_exp exp (.dot0 (ds1.reverse ++ d :: '.' :: lit)) (ds1.reverse ++ d :: '.' :: lit) ps c
        rest rfl hve hc]
    simp [renderFrac]

theorem feed_startsValue (st : Step) (ps : List Frame) (c : Char) (hst : startsValue st)
    (hs : isSpace c = false) (hb : c ≠ ']') :
    Scanner.feed ⟨st, ps⟩ c = stateBeginValue ps c := by
  rcases hst with h | h <;> subst h <;> simp [Scanner.feed, hs, hb]

theorem run_int (int : List Char) (frac : Option (List Char))
    (exp : Option (Char × Option Char × List Char)) (st : Step) (lit : List Char)
    (ps : List Frame) (c : Char) (rest : List Char)
    (hfeed : ∀ d, isDigit d = true →
      Scanner.feed ⟨st, ps⟩ d =
        if d = '0' then some ⟨.zero (d :: lit), ps⟩ else some ⟨.one (d :: lit), ps⟩)
    (hvi : validInt int = true) (hvf : validFrac frac = true) (hve : validExp exp = true)
    (hc : isDelim c) :
    Scanner.run ⟨st, ps⟩ (int ++ (renderFrac frac ++ (renderExp exp ++ c :: rest))) =
      (stateEndValue
        (.number (String.mk (lit.reverse ++ (int ++ (renderFrac frac ++ renderExp exp)))))
        ps c).bind (fun s => s.run rest) := by
  cases int with
  | nil => simp [validInt] at hvi
  | cons d ds =>
    simp only [validInt, Bool.or_eq_true, Bool.and_eq_true, decide_eq_true_eq,
      beq_iff_eq] at hvi
    rcases hvi with ⟨hd, hds⟩ | ⟨hd, hds⟩
    · subst hd; subst hds
      have hf := hfeed '0' (by decide)
      rw [if_pos rfl] at hf
      show Scanner.run _ ('0' :: (renderFrac frac ++ (renderExp exp ++ c :: rest))) = _
      rw [run_cons, hf, Option.some_bind,
        run_frac frac exp (.zero ('0' :: lit)) ('0' :: lit) ps c rest (Or.inl rfl) hvf hve hc]
      simp
    · have hdig : isDigit d = true := by
        simp only [isDigit, Bool.and_eq_true, decide_eq_true_eq]
        exact ⟨Char.le_trans (by decide) hd.1, hd.2⟩
      have hnz : d ≠ '0' := by
        rintro rfl
        exact absurd hd.1 (by decide)
      have hf := hfeed d hdig
      rw [if_neg hnz] at hf
      show Scanner.run _ (d :: (ds ++ (renderFrac frac ++ (renderExp exp ++ c :: rest)))) = _
      rw [run_cons, hf, Option.some_bind, run_digits_one _ _ _ _ hds,
        run_frac frac exp (.one (ds.reverse ++ d :: lit)) (ds.reverse ++ d :: lit) ps c rest
          (Or.inr rfl) hvf hve hc]
      simp

theorem isDigit_facts (d : Char) (h : isDigit d = true) :
    isSpace d = false ∧ d ≠ ']' ∧ d ≠ '{' ∧ d ≠ '[' ∧ d ≠ '"' ∧ d ≠ '-' ∧ d ≠ 't' ∧ d ≠ 'f' ∧
      d ≠ 'n' ∧ (d ≠ '0' → '1' ≤ d ∧ d ≤ '9') := by
  simp only [isDigit, Bool.and_eq_true, decide_eq_true_eq] at h
  have h0 : (48 : Nat) ≤ d.toNat := h.1
  have h9 : d.toNat ≤ 57 := h.2
  have hne : ∀ x : Char, (x.toNat < 48 ∨ 57 < x.toNat) → d ≠ x := by
    rintro x hx rfl; omega
  refine ⟨?_, hne _ (by decide), hne _ (by decide), hne _ (by decide), hne _ (by decide),
    hne _ (by decide), hne _ (by decide), hne _ (by decide), hne _ (by decide), ?_⟩
  · have h1 := hne ' ' (by decide)
    have h2 := hne '\t' (by decide)
    have h3 := hne '\r' (by decide)
    have h4 := hne '\n' (by decide)
    simp [isSpace, h1, h2, h3, h4]
  · intro hnz
    refine ⟨?_, h.2⟩
    show (49 : Nat) ≤ d.toNat
    have : d.toNat ≠ 48 := by
      intro h48
      apply hnz
      apply Char.ext
      apply UInt32.ext
      exact h48
    omega

theorem run_number (n : NumberText) (st : Step) (ps : List Frame) (c : Char)
    (rest : List Char) (hst : startsValue st) (hv : n.valid = true) (hc : isDelim c) :
    Scanner.run ⟨st, ps⟩ (n.render ++ c :: rest) =
      (stateEndValue (.number (String.mk n.render)) ps c).bind (fun s => s.run rest) := by
  simp only [NumberText.valid, Bool.and_eq_true] at hv
  obtain ⟨⟨hvi, hvf⟩, hve⟩ := hv
  have hstart : ∀ d, isDigit d = true →
      stateBeginValue ps d = (if d = '0' then some ⟨.zero [d], ps⟩ else some ⟨.one [d], ps⟩) := by
    intro d hd
    obtain ⟨_, _, h1, h2, h3, h4, h5, h6, h7, h8⟩ := isDigit_facts d hd
    by_cases hz : d = '0'
    · subst hz; simp [stateBeginValue]
    · simp [stateBeginValue, h1, h2, h3, h4, h5, h6, h7, hz, h8 hz]
  unfold NumberText.render
  cases hm : n.minus with
  | false =>
    simp only [Bool.false_eq_true, if_false, List.nil_append, List.append_assoc]
    have := run_int n.int n.frac n.exp st [] ps c rest (by
      intro d hd
      obtain ⟨hs, hb, _⟩ := isDigit_facts d hd
      rw [feed_startsValue st ps d hst hs hb]
      exact hstart d hd) hvi hvf hve hc
    simpa using this
  | true =>
    simp only [if_true, List.append_assoc, List.singleton_append, List.cons_append]
    have hf : Scanner.feed ⟨st, ps⟩ '-' = some ⟨.neg ['-'], ps⟩ := by
      rw [feed_startsValue st ps '-' hst (by decide) (by decide)]
      simp [stateBeginValue]
    rw [run_cons, hf, Option.some_bind]
    have := run_int n.int n.frac n.exp (.neg ['-']) ['-'] ps c rest (by
      intro d hd
      obtain ⟨_, _, _, _, _, _, _, _, _, h8⟩ := isDigit_facts d hd
      by_cases hz : d = '0'
      · subst hz; simp [Scanner.feed]
      · simp [Scanner.feed, hz, h8 hz]) hvi hvf hve hc
    simpa using this

theorem isDelim_of_space (c : Char) (h : isSpace c = true) : isDelim c := by
  simp only [isSpace, Bool.or_eq_true, decide_eq_true_eq] at h
  rcases h with ((h | h) | h) | h
  · exact Or.inl h
  · exact Or.inr (Or.inl h)
  · exact Or.inr (Or.inr (Or.inl h))
  · exact Or.inr (Or.inr (Or.inr (Or.inl h)))

theorem run_endValue_cons (v : JSONValue) (ps : List Frame) (c : Char) (rest : List Char) :
    Scanner.run ⟨.endValue v, ps⟩ (c :: rest) =
      (stateEndValue v ps c).bind (fun s => s.run rest) := by
  rw [run_cons]
  rfl

/-- A value, the white space after it, and then a comma or a closing
bracket: the scanner has completed the value and stands before that
character. -/
theorem run_value_then (t : JSONText) (st : Step) (ps : List Frame)
    (hV : ∀ c rest, isDelim c →
      Scanner.run ⟨st, ps⟩ (t.render ++ c :: rest) =
        (stateEndValue t.value ps c).bind (fun s => s.run rest))
    (after : List Char) (d : Char) (tail : List Char) (hws : isWS after = true)
    (hd : d = ',' ∨ d = ']' ∨ d = '}') :
    Scanner.run ⟨st, ps⟩ (t.render ++ (after ++ d :: tail)) =
      Scanner.run ⟨.endValue t.value, ps⟩ (d :: tail) := by
  cases after with
  | nil =>
    have hdel : isDelim d := by
      rcases hd with h | h | h
      · exact Or.inr (Or.inr (Or.inr (Or.inr (Or.inl h))))
      · exact Or.inr (Or.inr (Or.inr (Or.inr (Or.inr (Or.inl h)))))
      · exact Or.inr (Or.inr (Or.inr (Or.inr (Or.inr (Or.inr h)))))
    rw [List.nil_append, hV d tail hdel, run_endValue_cons]
  | cons w ws =>
    simp only [isWS, List.all_cons, Bool.and_eq_true] at hws
    rw [List.cons_append, hV w (ws ++ d :: tail) (isDelim_of_space w hws.1)]
    have hf : stateEndValue t.value ps w = some ⟨.endValue t.value, ps⟩ := by
      have := feed_space (.endValue t.value) ps w trivial hws.1
      simpa [Scanner.feed] using this
    rw [hf, Option.some_bind]
    exact run_skip ws _ ps _ hws.2 trivial

theorem elements_head (more : Elements) (x : List Char) :
    ∃ d tail, more.render false ++ ']' :: x = d :: tail ∧ (d = ',' ∨ d = ']' ∨ d = '}') := by
  cases more with
  | nil => exact ⟨']', x, by simp [Elements.render], Or.inr (Or.inl rfl)⟩
  | cons b v a m => exact ⟨',', _, by simp [Elements.render]; rfl, Or.inl rfl⟩

theorem members_head (more : Members) (x : List Char) :
    ∃ d tail, more.render false ++ '}' :: x = d :: tail ∧ (d = ',' ∨ d = ']' ∨ d = '}') := by
  cases more with
  | nil => exact ⟨'}', x, by simp [Members.render], Or.inr (Or.inr rfl)⟩
  | cons bk k ak bv v a m => exact ⟨',', _, by simp [Members.render]; rfl, Or.inl rfl⟩

theorem run_literal (first : Char) (more : List Char) (v : JSONValue) (st : Step)
    (ps : List Frame) (c : Char) (rest : List Char)
    (hfeed : Scanner.feed ⟨st, ps⟩ first = some ⟨.literal more v, ps⟩) (hmore : more ≠ []) :
    Scanner.run ⟨st, ps⟩ (first :: (more ++ c :: rest)) =
      (stateEndValue v ps c).bind (fun s => s.run rest) := by
  rw [run_cons, hfeed, Option.some_bind]
  clear hfeed
  induction more with
  | nil => exact absurd rfl hmore
  | cons x xs ih =>
    rw [List.cons_append, run_cons]
    by_cases hx : xs = []
    · subst hx
      have hf : Scanner.feed ⟨.literal [x] v, ps⟩ x = some ⟨.endValue v, ps⟩ := by
        simp [Scanner.feed]
      rw [hf, Option.some_bind, List.nil_append, run_endValue_cons]
    · have hf : Scanner.feed ⟨.literal (x :: xs) v, ps⟩ x = some ⟨.literal xs v, ps⟩ := by
        simp [Scanner.feed, hx]
      rw [hf, Option.some_bind]
      exact ih hx

mutual
theorem run_value : ∀ (t : JSONText) (st : Step) (ps : List Frame) (c : Char)
    (rest : List Char), startsValue st → t.valid = true →
    ps.length + t.depth ≤ maxNestingDepth → isDelim c →
    Scanner.run ⟨st, ps⟩ (t.render ++ c :: rest) =
      (stateEndValue t.value ps c).bind (fun s => s.run rest)
  | .litNull, st, ps, c, rest, hst, _, _, _ => by
    refine run_literal 'n' ['u', 'l', 'l'] .null st ps c rest ?_ (by simp)
    rw [feed_startsValue st ps 'n' hst (by decide) (by decide)]
    simp [stateBeginValue]
  | .litTrue, st, ps, c, rest, hst, _, _, _ => by
    refine run_literal 't' ['r', 'u', 'e'] (.bool true) st ps c rest ?_ (by simp)
    rw [feed_startsValue st ps 't' hst (by decide) (by decide)]
    simp [stateBeginValue]
  | .litFalse, st, ps, c, rest, hst, _, _, _ => by
    refine run_literal 'f' ['a', 'l', 's', 'e'] (.bool false) st ps c rest ?_ (by simp)
    rw [feed_startsValue st ps 'f' hst (by decide) (by decide)]
    simp [stateBeginValue]
  | .number n, st, ps, c, rest, hst, hv, _, hc => by
    simp only [JSONText.valid] at hv
    exact run_number n st ps c rest hst hv hc
  | .string items, st, ps, c, rest, hst, hv, _, _ => by
    simp only [JSONText.valid] at hv
    have hf : Scanner.feed ⟨st, ps⟩ '"' = some ⟨.inString [] none, ps⟩ := by
      rw [feed_startsValue st ps '"' hst (by decide) (by decide)]
      simp [stateBeginValue]
    show Scanner.run _ ('"' :: ((renderItems items ++ ['"']) ++ c :: rest)) = _
    have hl : (renderItems items ++ ['"']) ++ c :: rest =
        renderItems items ++ '"' :: (c :: rest) := by simp
    rw [hl, run_cons, hf, Option.some_bind, run_items items [] none ps _ hv,
      run_endValue_cons]
    simp [JSONText.value]
  | .array ws elems, st, ps, c, rest, hst, hv, hd, _ => by
    simp only [JSONText.valid, Bool.and_eq_true] at hv
    simp only [JSONText.depth] at hd
    have hpush : ps.length + 1 ≤ maxNestingDepth := by omega
    have hf : Scanner.feed ⟨st, ps⟩ '[' = some ⟨.beginValueOrEmpty, .arrayValue [] :: ps⟩ := by
      rw [feed_startsValue st ps '[' hst (by decide) (by decide)]
      simp [stateBeginValue, pushParseState, hpush]
    show Scanner.run _ ('[' :: ((ws ++ (elems.render true ++ [']'])) ++ c :: rest)) = _
    have hl : (ws ++ (elems.render true ++ [']'])) ++ c :: rest =
        ws ++ (elems.render true ++ ']' :: (c :: rest)) := by simp
    rw [hl, run_cons, hf, Option.some_bind, run_skip ws .beginValueOrEmpty _ _ hv.1 trivial]
    match elems, hv.2, hd with
    | .nil, _, _ =>
      have hf2 : Scanner.feed ⟨.beginValueOrEmpty, .arrayValue [] :: ps⟩ ']' =
          some ⟨.endValue (.array []), ps⟩ := by
        simp [Scanner.feed, isSpace]
      show Scanner.run _ (']' :: (c :: rest)) = _
      rw [run_cons, hf2, Option.some_bind, run_endValue_cons]
      rfl
    | .cons before t after more, hve, hde =>
      simp only [Elements.valid, Bool.and_eq_true] at hve
      simp only [Elements.depth] at hde
      obtain ⟨⟨⟨hb, ht⟩, ha⟩, hm⟩ := hve
      obtain ⟨d, tail, htail, hdd⟩ := elements_head more (c :: rest)
      show Scanner.run _ (before ++ (t.render ++ (after ++ more.render false)) ++
        ']' :: (c :: rest)) = _
      have hl2 : before ++ (t.render ++ (after ++ more.render false)) ++ ']' :: (c :: rest) =
          before ++ (t.render ++ (after ++ (more.render false ++ ']' :: (c :: rest)))) := by
        simp
      rw [hl2, run_skip before .beginValueOrEmpty _ _ hb trivial, htail,
        run_value_then t .beginValueOrEmpty (.arrayValue [] :: ps)
          (fun c1 rest1 hc1 => run_value t .beginValueOrEmpty (.arrayValue [] :: ps) c1 rest1
            (Or.inr rfl) ht (by simp only [List.length_cons]; omega) hc1)
          after d tail ha hdd,
        ← htail,
        run_elements more t.value [] ps (c :: rest) hm (by omega), run_endValue_cons]
      rfl
  | .object ws members, st, ps, c, rest, hst, hv, hd, _ => by
    simp only [JSONText.valid, Bool.and_eq_true] at hv
    simp only [JSONText.depth] at hd
    have hpush : ps.length + 1 ≤ maxNestingDepth := by omega
    have hf : Scanner.feed ⟨st, ps⟩ '{' = some ⟨.beginStringOrEmpty, .objectKey [] :: ps⟩ := by
      rw [feed_startsValue st ps '{' hst (by decide) (by decide)]
      simp [stateBeginValue, pushParseState, hpush]
    show Scanner.run _ ('{' :: ((ws ++ (members.render true ++ ['}'])) ++ c :: rest)) = _
    have hl : (ws ++ (members.render true ++ ['}'])) ++ c :: rest =
        ws ++ (members.render true ++ '}' :: (c :: rest)) := by simp
    rw [hl, run_cons, hf, Option.some_bind, run_skip ws .beginStringOrEmpty _ _ hv.1 trivial]
    match members, hv.2, hd with
    | .nil, _, _ =>
      have hf2 : Scanner.feed ⟨.beginStringOrEmpty, .objectKey [] :: ps⟩ '}' =
          some ⟨.endValue (.object []), ps⟩ := by
        simp [Scanner.feed, isSpace]
      show Scanner.run _ ('}' :: (c :: rest)) = _
      rw [run_cons, hf2, Option.some_bind, run_endValue_cons]
      rfl
    | .cons bk key ak bv t after more, hvm, hdm =>
      simp only [Members.valid, Bool.and_eq_true] at hvm
      simp only [Members.depth] at hdm
      obtain ⟨⟨⟨⟨⟨⟨hbk, hkey⟩, hak⟩, hbv⟩, ht⟩, ha⟩, hm⟩ := hvm
      obtain ⟨d, tail, htail, hdd⟩ := members_head more (c :: rest)
      have hq : Scanner.feed ⟨.beginStringOrEmpty, .objectKey [] :: ps⟩ '"' =
          some ⟨.inString [] none, .objectKey [] :: ps⟩ := by
        simp [Scanner.feed, isSpace]
      have hcolon : Scanner.feed
          ⟨.endValue (.string (String.mk (decodeItems none key))), .objectKey [] :: ps⟩ ':' =
          some ⟨.beginValue, .objectValue [] (String.mk (decodeItems none key)) :: ps⟩ := by
        simp [Scanner.feed, stateEndValue, isSpace]
      show Scanner.run _ (bk ++ ('"' :: (renderItems key ++ ('"' :: (ak ++ (':' :: (bv ++
        (t.render ++ (after ++ more.render false)))))))) ++ '}' :: (c :: rest)) = _
      have hl2 : bk ++ ('"' :: (renderItems key ++ ('"' :: (ak ++ (':' :: (bv ++
          (t.render ++ (after ++ more.render false)))))))) ++ '}' :: (c :: rest) =
          bk ++ ('"' :: (renderItems key ++ '"' :: (ak ++ (':' :: (bv ++
            (t.render ++ (after ++ (more.render false ++ '}' :: (c :: rest))))))))) := by
        simp
      rw [hl2, run_skip bk .beginStringOrEmpty _ _ hbk trivial, run_cons, hq, Option.some_bind,
        run_items key [] none _ _ hkey, List.reverse_nil, List.nil_append,
        run_skip ak (.endValue _) _ _ hak trivial, run_cons, hcolon, Option.some_bind,
        run_skip bv .beginValue _ _ hbv trivial, htail,
        run_value_then t .beginValue (.objectValue [] (String.mk (decodeItems none key)) :: ps)
          (fun c1 rest1 hc1 => run_value t .beginValue
            (.objectValue [] (String.mk (decodeItems none key)) :: ps) c1 rest1
            (Or.inl rfl) ht (by simp only [List.length_cons]; omega) hc1)
          after d tail ha hdd,
        ← htail,
        run_members more t.value (String.mk (decodeItems none key)) [] ps (c :: rest) hm
          (by omega),
        run_endValue_cons]
      rfl
theorem run_elements : ∀ (es : Elements) (v : JSONValue) (done : List JSONValue)
    (ps : List Frame) (rest : List Char), es.valid = true →
    ps.length + 1 + es.depth ≤ maxNestingDepth →
    Scanner.run ⟨.endValue v, .arrayValue done :: ps⟩ (es.render false ++ ']' :: rest) =
      Scanner.run ⟨.endValue (.array ((v :: done).reverse ++ es.values)), ps⟩ rest
  | .nil, v, done, ps, rest, _, _ => by
    have h : Scanner.feed ⟨.endValue v, .arrayValue done :: ps⟩ ']' =
        some ⟨.endValue (.array (v :: done).reverse), ps⟩ := by
      simp [Scanner.feed, stateEndValue, isSpace]
    show Scanner.run _ (']' :: rest) = _
    rw [run_cons, h, Option.some_bind]
    simp [Elements.values]
  | .cons before t after more, v, done, ps, rest, hv, hd => by
    simp only [Elements.valid, Bool.and_eq_true] at hv
    simp only [Elements.depth] at hd
    obtain ⟨⟨⟨hb, ht⟩, ha⟩, hm⟩ := hv
    obtain ⟨d, tail, htail, hdd⟩ := elements_head more rest
    have h1 : Scanner.feed ⟨.endValue v, .arrayValue done :: ps⟩ ',' =
        some ⟨.beginValue, .arrayValue (v :: done) :: ps⟩ := by
      simp [Scanner.feed, stateEndValue, isSpace]
    show Scanner.run _ (',' :: (before ++ (t.render ++ (after ++ more.render false))) ++
      ']' :: rest) = _
    have hl : ',' :: (before ++ (t.render ++ (after ++ more.render false))) ++ ']' :: rest =
        ',' :: (before ++ (t.render ++ (after ++ (more.render false ++ ']' :: rest)))) := by
      simp
    rw [hl, run_cons, h1, Option.some_bind, run_skip before .beginValue _ _ hb trivial, htail,
      run_value_then t .beginValue (.arrayValue (v :: done) :: ps)
        (fun c1 rest1 hc1 => run_value t .beginValue (.arrayValue (v :: done) :: ps) c1 rest1
          (Or.inl rfl) ht (by simp only [List.length_cons]; omega) hc1)
        after d tail ha hdd,
      ← htail, run_elements more t.value (v :: done) ps rest hm (by omega)]
    simp [Elements.values]
theorem run_members : ∀ (ms : Members) (v : JSONValue) (k : String)
    (done : List (String × JSONValue)) (ps : List Frame) (rest : List Char),
    ms.valid = true → ps.length + 1 + ms.depth ≤ maxNestingDepth →
    Scanner.run ⟨.endValue v, .objectValue done k :: ps⟩ (ms.render false ++ '}' :: rest) =
      Scanner.run ⟨.endValue (.object (((k, v) :: done).reverse ++ ms.values)), ps⟩ rest
  | .nil, v, k, done, ps, rest, _, _ => by
    have h : Scanner.feed ⟨.endValue v, .objectValue done k :: ps⟩ '}' =
        some ⟨.endValue (.object ((k, v) :: done).reverse), ps⟩ := by
      simp [Scanner.feed, stateEndValue, isSpace]
    show Scanner.run _ ('}' :: rest) = _
    rw [run_cons, h, Option.some_bind]
    simp [Members.values]
  | .cons bk key ak bv t after more, v, k, done, ps, rest, hv, hd => by
    simp only [Members.valid, Bool.and_eq_true] at hv
    simp only [Members.depth] at hd
    obtain ⟨⟨⟨⟨⟨⟨hbk, hkey⟩, hak⟩, hbv⟩, ht⟩, ha⟩, hm⟩ := hv
    obtain ⟨d, tail, htail, hdd⟩ := members_head more rest
    have h1 : Scanner.feed ⟨.endValue v, .objectValue done k :: ps⟩ ',' =
        some ⟨.beginString, .objectKey ((k, v) :: done) :: ps⟩ := by
      simp [Scanner.feed, stateEndValue, isSpace]
    have hq : Scanner.feed ⟨.beginString, .objectKey ((k, v) :: done) :: ps⟩ '"' =
        some ⟨.inString [] none, .objectKey ((k, v) :: done) :: ps⟩ := by
      simp [Scanner.feed, isSpace]
    have hcolon : Scanner.feed
        ⟨.endValue (.string (String.mk (decodeItems none key))),
          .objectKey ((k, v) :: done) :: ps⟩ ':' =
        some ⟨.beginValue,
          .objectValue ((k, v) :: done) (String.mk (decodeItems none key)) :: ps⟩ := by
      simp [Scanner.feed, stateEndValue, isSpace]
    show Scanner.run _ (',' :: (bk ++ ('"' :: (renderItems key ++ ('"' :: (ak ++ (':' :: (bv ++
      (t.render ++ (after ++ more.render false))))))))) ++ '}' :: rest) = _
    have hl : ',' :: (bk ++ ('"' :: (renderItems key ++ ('"' :: (ak ++ (':' :: (bv ++
        (t.render ++ (after ++ more.render false))))))))) ++ '}' :: rest =
        ',' :: (bk ++ ('"' :: (renderItems key ++ '"' :: (ak ++ (':' :: (bv ++
          (t.render ++ (after ++ (more.render false ++ '}' :: rest))))))))) := by
      simp
    rw [hl, run_cons, h1, Option.some_bind, run_skip bk .beginString _ _ hbk trivial, run_cons,
      hq,
      Option.some_bind, run_items key [] none _ _ hkey, List.reverse_nil, List.nil_append,
      run_skip ak (.endValue _) _ _ hak trivial, run_cons, hcolon, Option.some_bind,
      run_skip bv .beginValue _ _ hbv trivial, htail,
      run_value_then t .beginValue
        (.objectValue ((k, v) :: done) (String.mk (decodeItems none key)) :: ps)
        (fun c1 rest1 hc1 => run_value t .beginValue
          (.objectValue ((k, v) :: done) (String.mk (decodeItems none key)) :: ps) c1 rest1
          (Or.inl rfl) ht (by simp only [List.length_cons]; omega) hc1)
        after d tail ha hdd,
      ← htail,
      run_members more t.value (String.mk (decodeItems none key)) ((k, v) :: done) ps rest hm
        (by omega)]
    simp [Members.values]
end

theorem eof_after_run (s : Scanner) (text : List Char) :
    (match s.run text with
      | none => none
      | some s1 => s1.eof) =
    (match s.run (text ++ [' ']) with
      | some ⟨.endValue v, []⟩ => some v
      | _ => none) := by
  rw [run_append]
  cases h : s.run text with
  | none => rfl
  | some s1 =>
    simp only [Option.some_bind]
    have hr : s1.run [' '] = s1.feed ' ' := by
      rw [run_cons]
      cases s1.feed ' ' <;> rfl
    rw [hr]
    rfl

/-- The scanner accepts every text of the grammar that nests no deeper than
`maxNestingDepth`, white space around it included, and reads its value. -/
theorem parseJSON_of_text (body : String) (before : List Char) (text : JSONText)
    (after : List Char) (hbody : body.toList = before ++ (text.render ++ after))
    (hbefore : isWS before = true) (hafter : isWS after = true)
    (hvalid : text.valid = true) (hdepth : text.depth ≤ maxNestingDepth) :
    parseJSON body = some text.value := by
  unfold parseJSON
  rw [eof_after_run, hbody]
  have hl : before ++ (text.render ++ after) ++ [' '] =
      before ++ (text.render ++ (after ++ [' '])) := by simp
  rw [hl, Scanner.init, run_skip before .beginValue [] _ hbefore trivial]
  have hrun : Scanner.run ⟨.beginValue, []⟩ (text.render ++ (after ++ [' '])) =
      some ⟨.endValue text.value, []⟩ := by
    cases after with
    | nil =>
      rw [List.nil_append, run_value text .beginValue [] ' ' [] (Or.inl rfl) hvalid
        (by simpa using hdepth) (Or.inl rfl)]
      rfl
    | cons w ws =>
      simp only [isWS, List.all_cons, Bool.and_eq_true] at hafter
      rw [List.cons_append, run_value text .beginValue [] w (ws ++ [' ']) (Or.inl rfl) hvalid
        (by simpa using hdepth) (isDelim_of_space w hafter.1)]
      have hf : stateEndValue text.value [] w = some ⟨.endValue text.value, []⟩ := by
        simp [stateEndValue, hafter.1]
      rw [hf, Option.some_bind]
      have hws : isWS (ws ++ [' ']) = true := by
        simp only [isWS, List.all_append, List.all_cons, List.all_nil, Bool.and_true,
          Bool.and_eq_true]
        exact ⟨hafter.2, by decide⟩
      have := run_skip (ws ++ [' ']) (.endValue text.value) [] [] hws trivial
      rw [List.append_nil] at this
      rw [this]
      rfl
  rw [hrun]

theorem nestedArrays_valid (n : Nat) : (nestedArrays n).valid = true := by
  induction n with
  | zero => rfl
  | succ n ih => simp [nestedArrays, JSONText.valid, Elements.valid, isWS, ih]

theorem nestedArrays_depth (n : Nat) : (nestedArrays n).depth = n + 1 := by
  induction n with
  | zero => rfl
  | succ n ih => simp [nestedArrays, JSONText.depth, Elements.depth, ih]

theorem nestedArrays_render_succ (n : Nat) :
    (nestedArrays (n + 1)).render = '[' :: ((nestedArrays n).render ++ [']']) := by
  simp [nestedArrays, JSONText.render, Elements.render]

/-- The scanner rejects arrays nested deeper than `maxNestingDepth`. -/
theorem run_nestedArrays_too_deep (n : Nat) (st : Step) (ps : List Frame) (tail : List Char)
    (hst : startsValue st) (hdeep : maxNestingDepth < ps.length + (n + 1)) :
    Scanner.run ⟨st, ps⟩ ((nestedArrays n).render ++ tail) = none := by
  induction n generalizing st ps tail with
  | zero =>
    have hf : Scanner.feed ⟨st, ps⟩ '[' = none := by
      rw [feed_startsValue st ps '[' hst (by decide) (by decide)]
      have : ¬ ps.length + 1 ≤ maxNestingDepth := by omega
      simp [stateBeginValue, pushParseState, this]
    show Scanner.run _ ('[' :: _) = none
    rw [run_cons, hf]
    rfl
  | succ n ih =>
    rw [nestedArrays_render_succ, List.cons_append, run_cons,
      feed_startsValue st ps '[' hst (by decide) (by decide)]
    by_cases hpush : ps.length + 1 ≤ maxNestingDepth
    · have hf : stateBeginValue ps '[' = some ⟨.beginValueOrEmpty, .arrayValue [] :: ps⟩ := by
        simp [stateBeginValue, pushParseState, hpush]
      rw [hf, Option.some_bind, List.append_assoc]
      exact ih .beginValueOrEmpty (.arrayValue [] :: ps) _ (Or.inr rfl)
        (by simp only [List.length_cons]; omega)
    · have hf : stateBeginValue ps '[' = none := by
        simp [stateBeginValue, pushParseState, hpush]
      rw [hf]
      rfl

theorem textNested_render (n : Nat) :
    (textNested n).render =
      '{' :: '"' :: 'a' :: 'p' :: 'i' :: '_' :: 'k' :: 'e' :: 'y' :: '"' :: ':' :: '"' :: 'S' ::
        'G' :: '.' :: 'n' :: 'e' :: 'w' :: '"' :: ',' :: '"' :: 'x' :: '"' :: ':' ::
        ((nestedArrays n).render ++ ['}']) := by
  simp [textNested, JSONText.render, Members.render, plainItems, renderItems,
    StringItem.render]

theorem parseJSON_textNested (n : Nat) (hdeep : maxNestingDepth < n + 2) :
    parseJSON (String.mk (textNested n).render) = none := by
  have hpre : ∀ cs, Scanner.run Scanner.init
      ('{' :: '"' :: 'a' :: 'p' :: 'i' :: '_' :: 'k' :: 'e' :: 'y' :: '"' :: ':' :: '"' :: 'S' ::
        'G' :: '.' :: 'n' :: 'e' :: 'w' :: '"' :: ',' :: '"' :: 'x' :: '"' :: ':' :: cs) =
      Scanner.run ⟨.beginValue, [.objectValue [("api_key", .string "SG.new")] "x"]⟩ cs := by
    intro cs; rfl
  unfold parseJSON
  show (match Scanner.run Scanner.init (textNested n).render with
    | none => none
    | some s => s.eof) = none
  rw [textNested_render, hpre, run_nestedArrays_too_deep n .beginValue _ _ (Or.inl rfl)
    (by simp only [List.length_cons, List.length_nil]; omega)]

theorem textNested_depth (n : Nat) : (textNested n).depth = n + 2 := by
  have h : (textNested n).depth = max 0 (max (nestedArrays n).depth 0) + 1 := rfl
  rw [h, nestedArrays_depth]
  simp

theorem jsonUnmarshal_of_not_json (body : String) (h : parseJSON body = none) :
    jsonUnmarshal body = .error .syntaxError := by
  simp [jsonUnmarshal, h]

theorem textNested_valid (n : Nat) : (textNested n).valid = true := by
  simp [textNested, JSONText.valid, Members.valid, isWS, nestedArrays_valid, plainItems,
    StringItem.valid]

/-- A body that the decoder reads as an object with a usable key ends in
success. -/
theorem main_of_parsed_object (args : List GoString) (env : String → Option String)
    (API : Request → APIResult) (errText : UnmarshalError → String)
    (body : String) (members : List (String × JSONValue)) (key : String)
    (hargs : 1 ≤ positional args) (henv : Getenv env "SENDGRID_API_KEY" ≠ "")
    (hapi : API (dispatched args env) = .ok ⟨201, body⟩)
    (hjson : parseJSON body = some (.object members))
    (htypes : ∀ m ∈ members, findField m.1 ≠ none → m.2.isString = true ∨ m.2.isNull = true)
    (hkey : (JSONValue.object members).apiKey = some key) (hne : key ≠ "") :
    main args env API errText =
      { exitCode := 0, stdout := [key ++ "\n"], stderr := [],
        requests := [dispatched args env] } := by
  have herr := foldl_member_savedError members Decoder.init htypes
  have hval := foldl_member_APIKey members Decoder.init
  have hkey1 : (apiKeyStrings members).getLast? = some key := hkey
  have hun : jsonUnmarshal body = .ok (members.foldl Decoder.member Decoder.init).resp := by
    rw [jsonUnmarshal_object body members hjson, herr]
    rfl
  rw [hkey1] at hval
  have hval1 : (members.foldl Decoder.member Decoder.init).resp.APIKey = key := hval
  have hfull : (members.foldl Decoder.member Decoder.init).resp.APIKey ≠ "" := by
    rw [hval1]; exact hne
  rw [main_success args env API errText ((positional_pos args).mp hargs) henv ⟨201, body⟩ hapi
    rfl _ hun hfull, hval1]

/-! ## The claims -/

/-- C7: with no positional argument (an argument vector of fewer than two
entries) `main` writes the usage message to standard error, exits with code
1 and hands no request to the transport; the run is the same whatever the
environment and the transport are. -/
theorem no_argument_prints_usage (args : List GoString) (env : String → Option String)
    (API : Request → APIResult) (errText : UnmarshalError → String)
    (h : args.length < 2) :
    main args env API errText =
      { exitCode := 1, stdout := [], requests := [],
        stderr := ["Usage: go run your_script_name.go \"New API Key Name\"\n"] } ∧
    ∀ (env2 : String → Option String) (API2 : Request → APIResult)
      (errText2 : UnmarshalError → String),
      main args env2 API2 errText2 = main args env API errText := by
  refine ⟨main_usage args env API errText h, ?_⟩
  intro env2 API2 errText2
  rw [main_usage args env API errText h, main_usage args env2 API2 errText2 h]

theorem no_argument_prints_usage_witness :
    main [utf8 "create-sendgrid-key"] credentialSet (sampleAPI 201 bodyEmptyObject)
        sampleErrText =
      { exitCode := 1, stdout := [], requests := [],
        stderr := ["Usage: go run your_script_name.go \"New API Key Name\"\n"] } :=
  (no_argument_prints_usage [utf8 "create-sendgrid-key"] credentialSet
    (sampleAPI 201 bodyEmptyObject) sampleErrText (by decide)).1

/-- C8: with a positional argument present and `SENDGRID_API_KEY` unset or
empty, `main` writes its error message to standard error, exits with code 1
and hands no request to the transport. -/
theorem missing_credential_is_fatal (args : List GoString) (env : String → Option String)
    (API : Request → APIResult) (errText : UnmarshalError → String)
    (hargs : 1 ≤ positional args)
    (henv : env "SENDGRID_API_KEY" = none ∨ env "SENDGRID_API_KEY" = some "") :
    main args env API errText =
      { exitCode := 1, stdout := [], requests := [],
        stderr := ["Error: SENDGRID_API_KEY environment variable not set.\n"] } :=
  main_no_credential args env API errText ((positional_pos args).mp hargs)
    (Getenv_of_unset env _ henv)

theorem missing_credential_is_fatal_witness :
    main sampleArgs (sampleEnv none) (sampleAPI 201 bodyEmptyObject)
        sampleErrText =
      { exitCode := 1, stdout := [], requests := [],
        stderr := ["Error: SENDGRID_API_KEY environment variable not set.\n"] } ∧
    main sampleArgs (sampleEnv (some "")) (sampleAPI 201 bodyEmptyObject)
        sampleErrText =
      { exitCode := 1, stdout := [], requests := [],
        stderr := ["Error: SENDGRID_API_KEY environment variable not set.\n"] } :=
  ⟨missing_credential_is_fatal _ (sampleEnv none) _ _ (by decide) (Or.inl rfl),
   missing_credential_is_fatal _ (sampleEnv (some "")) _ _ (by decide) (Or.inr rfl)⟩

/-- C5: when the transport returns, without error, a response whose status
code is not 201, `main` exits with code 1, writes the status code and the
raw response body to standard error and nothing to standard output,
whatever the body is. -/
theorem other_status_is_fatal (args : List GoString) (env : String → Option String)
    (API : Request → APIResult) (errText : UnmarshalError → String)
    (status : Int) (body : String)
    (hargs : 1 ≤ positional args) (henv : Getenv env "SENDGRID_API_KEY" ≠ "")
    (hapi : API (dispatched args env) = .ok ⟨status, body⟩)
    (hstatus : status ≠ 201) :
    main args env API errText =
      { exitCode := 1, stdout := [], requests := [dispatched args env],
        stderr := ["Error: SendGrid API responded with status code " ++
                     toString status ++ ".\n",
                   "Response Body: " ++ body ++ "\n"] } :=
  main_status args env API errText ((positional_pos args).mp hargs) henv ⟨status, body⟩ hapi
    hstatus

theorem other_status_is_fatal_witness :
    main sampleArgs credentialSet (sampleAPI 200 bodyKeyOnly) sampleErrText =
      { exitCode := 1, stdout := [],
        requests := [dispatched sampleArgs credentialSet],
        stderr := ["Error: SendGrid API responded with status code " ++
                     toString (200 : Int) ++ ".\n",
                   "Response Body: " ++ bodyKeyOnly ++ "\n"] } :=
  other_status_is_fatal _ _ _ _ 200 bodyKeyOnly (by decide) (by decide) rfl
    (by decide)

/-- C3: every run of `main` ends either in success (exit code 0, standard
output written once with the decoded key and its line break, nothing on
standard error) or in failure (exit code 1, standard output empty, standard
error not empty), never both; the exit code is 0 or 1; and a transport
error, with or without a partial response, ends in failure. -/
theorem two_terminal_states (args : List GoString) (env : String → Option String)
    (API : Request → APIResult) (errText : UnmarshalError → String) :
    (((∃ response resp, API (dispatched args env) = .ok response ∧
          response.StatusCode = 201 ∧ jsonUnmarshal response.Body = .ok resp ∧
          (main args env API errText).success resp.APIKey ∧
          (main args env API errText).stderr = []) ∨
        (main args env API errText).failure) ∧
      ¬ ((∃ key, (main args env API errText).success key) ∧
          (main args env API errText).failure)) ∧
    ((main args env API errText).exitCode = 0 ∨ (main args env API errText).exitCode = 1) ∧
    (∀ (err : String) (response : Option Response),
      1 ≤ positional args → Getenv env "SENDGRID_API_KEY" ≠ "" →
      API (dispatched args env) = .failed err response →
      (main args env API errText).failure ∧
        ("Error calling SendGrid API: " ++ err ++ "\n") ∈ (main args env API errText).stderr) := by
  refine ⟨⟨?_, ?_⟩, ?_, ?_⟩
  · rcases main_cases args env API errText with ⟨hf, _, _⟩ | ⟨_, _, _, hf | hs⟩
    · exact Or.inr hf
    · exact Or.inr hf
    · exact Or.inl hs
  · rintro ⟨⟨key, h0, _, _⟩, h1, _, _⟩
    rw [h0] at h1
    exact absurd h1 (by decide)
  · rcases main_cases args env API errText with ⟨hf, _, _⟩ | ⟨_, _, _, hf | hs⟩
    · exact Or.inr hf.1
    · exact Or.inr hf.1
    · obtain ⟨_, _, _, _, _, hs, _⟩ := hs
      exact Or.inl hs.1
  · intro err response hargs henv hapi
    rw [main_transport_error args env API errText ((positional_pos args).mp hargs) henv err
      response hapi]
    exact ⟨⟨rfl, rfl, by simp⟩, List.mem_cons_self _ _⟩

/-- C9, as stated, fails: with two positional arguments `main` passes the
argument check, dispatches a request for the first one and succeeds. -/
theorem two_arguments_dispatch :
    positional [utf8 "create-sendgrid-key", utf8 "first", utf8 "second"] = 2 ∧
    (main [utf8 "create-sendgrid-key", utf8 "first", utf8 "second"] credentialSet
        (sampleAPI 201 bodyKeyOnly) sampleErrText).requests =
      [dispatched [utf8 "create-sendgrid-key", utf8 "first"] credentialSet] ∧
    (main [utf8 "create-sendgrid-key", utf8 "first", utf8 "second"] credentialSet
        (sampleAPI 201 bodyKeyOnly) sampleErrText).exitCode = 0 := by
  have h := main_success [utf8 "create-sendgrid-key", utf8 "first", utf8 "second"]
    credentialSet (sampleAPI 201 bodyKeyOnly) sampleErrText (by decide) (by decide)
    ⟨201, bodyKeyOnly⟩ rfl rfl ⟨"SG.new", "", ""⟩ rfl (by decide)
  refine ⟨by decide, ?_, ?_⟩
  · rw [h]; rfl
  · rw [h]

/-- C9, amended: the argument check requires at least one positional
argument. `main` dispatches a request exactly when there is at least one
positional argument and the credential is not empty; with none it
dispatches nothing; and positional arguments after the first are ignored:
the run is the run on the program name and the first argument alone. -/
theorem argument_check_at_least_one (args : List GoString) (env : String → Option String)
    (API : Request → APIResult) (errText : UnmarshalError → String) :
    ((main args env API errText).requests ≠ [] ↔
      1 ≤ positional args ∧ Getenv env "SENDGRID_API_KEY" ≠ "") ∧
    (positional args = 0 → (main args env API errText).requests = []) ∧
    main args env API errText = main (args.take 2) env API errText := by
  refine ⟨⟨?_, ?_⟩, ?_, main_take_two args env API errText⟩
  · intro hreq
    rcases main_cases args env API errText with ⟨_, h0, _⟩ | ⟨h1, h2, _, _⟩
    · exact absurd h0 hreq
    · exact ⟨h1, h2⟩
  · rintro ⟨h1, h2⟩
    rcases main_cases args env API errText with ⟨_, _, h0 | h0⟩ | ⟨_, _, hreq, _⟩
    · omega
    · exact absurd h0 h2
    · rw [hreq]; simp
  · intro h0
    rcases main_cases args env API errText with ⟨_, hreq, _⟩ | ⟨h1, _, _, _⟩
    · exact hreq
    · omega

/-- C2, as stated, fails: a 201 response whose `api_key` holds a line feed
(written `\n` in the JSON text) ends with exit code 0 and two lines on
standard output. -/
theorem key_with_line_feed :
    (main sampleArgs credentialSet (sampleAPI 201 bodyLineFeedKey) sampleErrText).exitCode = 0 ∧
    (main sampleArgs credentialSet (sampleAPI 201 bodyLineFeedKey) sampleErrText).stdout = ["a\nb\n"] ∧
    oneNonEmptyLine (String.join
      (main sampleArgs credentialSet (sampleAPI 201 bodyLineFeedKey) sampleErrText).stdout) =
        false := by
  decide

/-- C2, amended: the exit code is 0 exactly when standard output is one
write of a non-empty key followed by a line break (otherwise standard
output is empty); that output is exactly one non-empty line exactly when the
key holds no line feed; and whenever standard output is exactly one
non-empty line, the exit code is 0. -/
theorem exit_zero_iff_key_printed (args : List GoString) (env : String → Option String)
    (API : Request → APIResult) (errText : UnmarshalError → String) :
    ((main args env API errText).exitCode = 0 ↔
      ∃ key, key ≠ "" ∧ (main args env API errText).stdout = [key ++ "\n"]) ∧
    ((main args env API errText).exitCode ≠ 0 → (main args env API errText).stdout = []) ∧
    (∀ key, (main args env API errText).stdout = [key ++ "\n"] →
      (oneNonEmptyLine (String.join (main args env API errText).stdout) = true ↔
        key ≠ "" ∧ '\n' ∉ key.toList)) ∧
    (oneNonEmptyLine (String.join (main args env API errText).stdout) = true →
      (main args env API errText).exitCode = 0) := by
  have hjoin : ∀ t : String, String.join [t] = t := by
    intro t
    show "" ++ t = t
    simp
  have hcases : (∃ key, (main args env API errText).success key) ∨
      (main args env API errText).failure := by
    rcases main_cases args env API errText with ⟨hf, _, _⟩ | ⟨_, _, _, hf | hs⟩
    · exact Or.inr hf
    · exact Or.inr hf
    · obtain ⟨_, resp, _, _, _, hs, _⟩ := hs
      exact Or.inl ⟨resp.APIKey, hs⟩
  refine ⟨⟨?_, ?_⟩, ?_, ?_, ?_⟩
  · intro h0
    rcases hcases with ⟨key, _, hout, hne⟩ | ⟨h1, _, _⟩
    · exact ⟨key, hne, hout⟩
    · rw [h0] at h1; exact absurd h1 (by decide)
  · rintro ⟨key, _, hout⟩
    rcases hcases with ⟨_, h0, _, _⟩ | ⟨_, hempty, _⟩
    · exact h0
    · rw [hempty] at hout; cases hout
  · intro hne
    rcases hcases with ⟨_, h0, _, _⟩ | ⟨_, hempty, _⟩
    · exact absurd h0 hne
    · exact hempty
  · intro key hout
    rw [hout, hjoin]
    exact oneNonEmptyLine_println key
  · intro hline
    rcases hcases with ⟨_, h0, _, _⟩ | ⟨_, hempty, _⟩
    · exact h0
    · rw [hempty] at hline
      exact absurd hline (by decide)

/-- C1, as stated, fails. The first body is well-formed JSON with the
non-empty string `api_key`, but its `name` member is a number:
`json.Unmarshal` returns a type error and `main` exits with code 1. The
second body has the non-empty string `api_key` and, after it, an empty
string under a key that differs from `api_key` in letter case only: the
decoder stores that one last, and `main` exits with code 1. The third body
is well-formed JSON with the non-empty string `api_key` and a member `x` of
10000 arrays, one inside the other: `json.Unmarshal` rejects what nests
deeper than 10000, and `main` exits with code 1. Standard output is empty
all three times. -/
theorem known_field_of_wrong_type :
    (parseJSON bodyNumberName =
        some (.object [("api_key", .string "SG.new"), ("name", .number "5")]) ∧
      main sampleArgs credentialSet (sampleAPI 201 bodyNumberName) sampleErrText =
        { exitCode := 1, stdout := [],
          requests := [dispatched sampleArgs credentialSet],
          stderr := ["Error unmarshalling successful response body: " ++
                       sampleErrText (.typeError "number" "name") ++ "\n",
                     "Raw Response Body: " ++ bodyNumberName ++ "\n"] }) ∧
    (parseJSON bodyKeyThenEmptyMixedCase =
        some (.object [("api_key", .string "SG.new"), ("Api_Key", .string "")]) ∧
      main sampleArgs credentialSet (sampleAPI 201 bodyKeyThenEmptyMixedCase) sampleErrText =
        { exitCode := 1, stdout := [],
          requests := [dispatched sampleArgs credentialSet],
          stderr := ["Error: API key not found in successful SendGrid response.\n",
                     "Raw Response Body: " ++ bodyKeyThenEmptyMixedCase ++ "\n"] }) ∧
    (bodyTooDeep.toList = (textNested 9999).render ∧ (textNested 9999).valid = true ∧
      (textNested 9999).depth = 10001 ∧
      main sampleArgs credentialSet (sampleAPI 201 bodyTooDeep) sampleErrText =
        { exitCode := 1, stdout := [],
          requests := [dispatched sampleArgs credentialSet],
          stderr := ["Error unmarshalling successful response body: " ++
                       sampleErrText .syntaxError ++ "\n",
                     "Raw Response Body: " ++ bodyTooDeep ++ "\n"] }) := by
  refine ⟨⟨rfl, ?_⟩, ⟨rfl, ?_⟩, ⟨rfl, textNested_valid 9999, ?_, ?_⟩⟩
  · exact main_unmarshal_error _ _ _ _ (by decide) (by decide) ⟨201, bodyNumberName⟩ rfl rfl
      (.typeError "number" "name") rfl
  · exact main_key_missing _ _ _ _ (by decide) (by decide) ⟨201, bodyKeyThenEmptyMixedCase⟩
      rfl rfl ⟨"", "", ""⟩ rfl rfl
  · exact textNested_depth 9999
  · have hjson : jsonUnmarshal bodyTooDeep = .error .syntaxError :=
      jsonUnmarshal_of_not_json bodyTooDeep
        (parseJSON_textNested 9999 (by simp [maxNestingDepth]))
    exact main_unmarshal_error _ _ _ _ (by decide) (by decide) ⟨201, bodyTooDeep⟩ rfl rfl
      .syntaxError hjson

/-- C1, amended: with at least one positional argument, a non-empty
credential and a transport that returns, without error, status 201 and a
body that is well-formed JSON (a text of the grammar, white space around it
allowed) nested no deeper than 10000 arrays and objects (the limit of
`encoding/json`), whose value is an object in which every member matched
with one of the fields `api_key`, `name`, `api_key_id` holds a string or
`null` (whatever the unmatched members are) and in which the last string
matched with `api_key` is the non-empty `key`: `main` writes `key` and a
line break to standard output, once, nothing to standard error, and exits
with code 0. -/
theorem created_key_is_printed (args : List GoString) (env : String → Option String)
    (API : Request → APIResult) (errText : UnmarshalError → String)
    (body : String) (before : List Char) (text : JSONText) (after : List Char)
    (members : List (String × JSONValue)) (key : String)
    (hargs : 1 ≤ positional args) (henv : Getenv env "SENDGRID_API_KEY" ≠ "")
    (hapi : API (dispatched args env) = .ok ⟨201, body⟩)
    (hbody : body.toList = before ++ (text.render ++ after))
    (hbefore : isWS before = true) (hafter : isWS after = true)
    (hvalid : text.valid = true) (hdepth : text.depth ≤ maxNestingDepth)
    (hobject : text.value = .object members)
    (htypes : ∀ m ∈ members, findField m.1 ≠ none → m.2.isString = true ∨ m.2.isNull = true)
    (hkey : (JSONValue.object members).apiKey = some key) (hne : key ≠ "") :
    main args env API errText =
      { exitCode := 0, stdout := [key ++ "\n"], stderr := [],
        requests := [dispatched args env] } := by
  have hjson : parseJSON body = some (.object members) := by
    rw [parseJSON_of_text body before text after hbody hbefore hafter hvalid hdepth, hobject]
  exact main_of_parsed_object args env API errText body members key hargs henv hapi hjson
    htypes hkey hne

theorem created_key_is_printed_witness :
    main sampleArgs credentialSet (sampleAPI 201 bodyComplete) sampleErrText =
      { exitCode := 0, stdout := ["SG.new" ++ "\n"], stderr := [],
        requests := [dispatched sampleArgs credentialSet] } :=
  created_key_is_printed _ _ _ _ bodyComplete [] textComplete []
    [("api_key", .string "SG.new"), ("name", .string "my key"), ("api_key_id", .null),
      ("scopes", .array [.number "1"])]
    "SG.new" (by decide) (by decide) rfl (by decide) rfl rfl (by decide) (by decide) rfl
    (by decide) rfl (by decide)

/-- C6, as stated, fails twice. A body without a member named `api_key`,
and a body whose only member named `api_key` is the empty string, both end
with exit code 0 and a key on standard output, because the decoder also
stores a member whose key differs from `api_key` in letter case only. -/
theorem key_matched_without_case :
    (parseJSON bodyUpperCaseKey = some (.object [("API_KEY", .string "SG.new")]) ∧
      hasMember "api_key" [("API_KEY", .string "SG.new")] = false ∧
      main sampleArgs credentialSet (sampleAPI 201 bodyUpperCaseKey) sampleErrText =
        { exitCode := 0, stdout := ["SG.new\n"], stderr := [],
          requests := [dispatched sampleArgs credentialSet] }) ∧
    (parseJSON bodyEmptyThenMixedCase =
        some (.object [("api_key", .string ""), ("Api_Key", .string "SG.new")]) ∧
      main sampleArgs credentialSet (sampleAPI 201 bodyEmptyThenMixedCase) sampleErrText =
        { exitCode := 0, stdout := ["SG.new\n"], stderr := [],
          requests := [dispatched sampleArgs credentialSet] }) :=
  ⟨⟨rfl, by decide,
      main_success _ _ _ _ (by decide) (by decide) ⟨201, bodyUpperCaseKey⟩ rfl rfl
        ⟨"SG.new", "", ""⟩ rfl (by decide)⟩,
    ⟨rfl,
      main_success _ _ _ _ (by decide) (by decide) ⟨201, bodyEmptyThenMixedCase⟩ rfl rfl
        ⟨"SG.new", "", ""⟩ rfl (by decide)⟩⟩

/-- C6, amended: when the transport returns status 201 with a syntactically
valid JSON body in which no member matched with the `api_key` field (by the
exact key or by a key that differs in letter case only) holds a string, or
the last such string is empty, `main` exits with code 1, writes an error
(the unmarshalling error if there is one, "API key not found" otherwise)
and the raw response body to standard error, and nothing to standard
output. -/
theorem absent_key_is_fatal (args : List GoString) (env : String → Option String)
    (API : Request → APIResult) (errText : UnmarshalError → String)
    (body : String) (v : JSONValue)
    (hargs : 1 ≤ positional args) (henv : Getenv env "SENDGRID_API_KEY" ≠ "")
    (hapi : API (dispatched args env) = .ok ⟨201, body⟩)
    (hjson : parseJSON body = some v)
    (hkey : v.apiKey = none ∨ v.apiKey = some "") :
    main args env API errText =
      { exitCode := 1, stdout := [], requests := [dispatched args env],
        stderr := [(match jsonUnmarshal body with
                    | .error err =>
                      "Error unmarshalling successful response body: " ++ errText err ++ "\n"
                    | .ok _ => "Error: API key not found in successful SendGrid response.\n"),
                   "Raw Response Body: " ++ body ++ "\n"] } := by
  have h2 := (positional_pos args).mp hargs
  cases hun : jsonUnmarshal body with
  | error err => exact main_unmarshal_error args env API errText h2 henv ⟨201, body⟩ hapi rfl err hun
  | ok resp =>
    have hempty : resp.APIKey = "" := by
      rw [jsonUnmarshal_ok_APIKey body v resp hjson hun]
      rcases hkey with h | h <;> rw [h] <;> rfl
    exact main_key_missing args env API errText h2 henv ⟨201, body⟩ hapi rfl resp hun hempty

theorem absent_key_is_fatal_witness :
    main sampleArgs credentialSet (sampleAPI 201 bodyWithoutKey) sampleErrText =
      { exitCode := 1, stdout := [],
        requests := [dispatched sampleArgs credentialSet],
        stderr := [(match jsonUnmarshal bodyWithoutKey with
                    | .error err =>
                      "Error unmarshalling successful response body: " ++
                        sampleErrText err ++ "\n"
                    | .ok _ => "Error: API key not found in successful SendGrid response.\n"),
                   "Raw Response Body: " ++ bodyWithoutKey ++ "\n"] } :=
  absent_key_is_fatal _ _ _ _ bodyWithoutKey
    (.object [("name", .string "my key"), ("api_key_id", .string "id")])
    (by decide) (by decide) rfl rfl (Or.inl rfl)

/-- C10, as stated, fails: `null` is not a string, but a body whose `name`
member is `null` does not fail to parse: the decoder skips the member,
and `main` prints the key and exits with code 0. -/
theorem null_member_is_skipped :
    parseJSON bodyNullName =
      some (.object [("api_key", .string "SG.new"), ("name", .null)]) ∧
    JSONValue.isString .null = false ∧
    main sampleArgs credentialSet (sampleAPI 201 bodyNullName) sampleErrText =
      { exitCode := 0, stdout := ["SG.new\n"], stderr := [],
        requests := [dispatched sampleArgs credentialSet] } :=
  ⟨rfl, rfl,
    main_success _ _ _ _ (by decide) (by decide) ⟨201, bodyNullName⟩ rfl rfl
      ⟨"SG.new", "", ""⟩ rfl (by decide)⟩

/-- C10, amended: when the transport returns status 201 with a body that
`json.Unmarshal` rejects, `main` exits with code 1, writes the
unmarshalling error and the raw response body to standard error, and
nothing to standard output. A body is rejected when it is not JSON (not
JSON at all, or truncated), and when it is a JSON object in which a member
matched with `api_key`, `name` or `api_key_id` holds a number, a boolean,
an array or an object; a `null` there is not an error. -/
theorem rejected_body_is_fatal (args : List GoString) (env : String → Option String)
    (API : Request → APIResult) (errText : UnmarshalError → String) (body : String)
    (hargs : 1 ≤ positional args) (henv : Getenv env "SENDGRID_API_KEY" ≠ "")
    (hapi : API (dispatched args env) = .ok ⟨201, body⟩) :
    (∀ err, jsonUnmarshal body = .error err →
      main args env API errText =
        { exitCode := 1, stdout := [], requests := [dispatched args env],
          stderr := ["Error unmarshalling successful response body: " ++ errText err ++ "\n",
                     "Raw Response Body: " ++ body ++ "\n"] }) ∧
    (parseJSON body = none → jsonUnmarshal body = .error .syntaxError) ∧
    (∀ members k v, parseJSON body = some (.object members) → (k, v) ∈ members →
      findField k ≠ none → v.isString = false → v.isNull = false →
      ∃ err, jsonUnmarshal body = .error err) := by
  refine ⟨?_, ?_, ?_⟩
  · intro err hun
    exact main_unmarshal_error args env API errText ((positional_pos args).mp hargs) henv
      ⟨201, body⟩ hapi rfl err hun
  · intro hnone
    simp [jsonUnmarshal, hnone]
  · intro members k v hjson hmem hfield hs hn
    have herr := foldl_member_type_error members Decoder.init k v hmem hfield hs hn
    rw [jsonUnmarshal_object body members hjson]
    cases hd : (members.foldl Decoder.member Decoder.init).savedError with
    | none => exact absurd hd herr
    | some err => exact ⟨err, rfl⟩

theorem rejected_body_is_fatal_witness :
    main sampleArgs credentialSet (sampleAPI 201 bodyTruncated) sampleErrText =
      { exitCode := 1, stdout := [],
        requests := [dispatched sampleArgs credentialSet],
        stderr := ["Error unmarshalling successful response body: " ++
                     sampleErrText .syntaxError ++ "\n",
                   "Raw Response Body: " ++ bodyTruncated ++ "\n"] } :=
  (rejected_body_is_fatal _ _ _ _ bodyTruncated (by decide) (by decide)
    rfl).1 .syntaxError rfl

/-- C4, as stated, fails: the key name need not be UTF-8. For the argument
`a\xffb` the body `main` dispatches names the key `a`, U+FFFD, `b`;
no text, and so no JSON string, has the bytes of the argument. -/
theorem invalid_byte_is_replaced :
    (main [utf8 "create-sendgrid-key", nameWithBadByte] credentialSet
        (sampleAPI 201 bodyKeyOnly) sampleErrText).requests =
      [{ key := "SG.admin", endpoint := "/v3/api_keys", host := "https://api.sendgrid.com",
         Method := "POST", Body := requestBody nameWithBadByte }] ∧
    parseJSON (requestBody nameWithBadByte) =
      some (.object [("name", .string "a\uFFFDb"),
                     ("scopes", .array (definedScopes.map .string))]) ∧
    utf8 "a\uFFFDb" ≠ nameWithBadByte ∧
    ∀ s : String, utf8 s ≠ nameWithBadByte := by
  refine ⟨?_, ?_, by decide, ?_⟩
  · rw [main_success [utf8 "create-sendgrid-key", nameWithBadByte] credentialSet
      (sampleAPI 201 bodyKeyOnly) sampleErrText (by decide) (by decide)
      ⟨201, bodyKeyOnly⟩ rfl rfl ⟨"SG.new", "", ""⟩ rfl (by decide)]
    rfl
  · rw [parseJSON_requestBody]
    rfl
  · intro s hs
    have h1 : runes nameWithBadByte = s.toList.map some := by
      rw [← hs]; exact runes_utf8Chars s.toList
    have h2 : runes nameWithBadByte = [some 'a', none, some 'b'] := by decide
    rw [h2] at h1
    have h3 : (none : Option Char) ∈ s.toList.map some := by
      rw [← h1]; simp
    simp at h3

/-- C4, amended: for every key name (the first positional argument,
whatever comes after it), once the credential is not empty `main` hands the
transport exactly one request: a POST to `/v3/api_keys` on
`https://api.sendgrid.com` whose body is JSON text for the object with
`name` equal to the text of the argument and `scopes` equal to
`definedScopes`, every element, in order. The text of an argument that is
UTF-8 (the empty name and names that need escaping included) is the
argument, unchanged; in any other argument each byte outside a valid UTF-8
sequence reads U+FFFD. The body is the marshalled name followed by a text
that is the same for every name. -/
theorem request_names_key_and_all_scopes (prog name : GoString) (extra : List GoString)
    (env : String → Option String) (API : Request → APIResult)
    (errText : UnmarshalError → String)
    (henv : Getenv env "SENDGRID_API_KEY" ≠ "") :
    ∃ body : String,
      (main (prog :: name :: extra) env API errText).requests =
        [{ key := Getenv env "SENDGRID_API_KEY", endpoint := "/v3/api_keys",
           host := "https://api.sendgrid.com", Method := "POST", Body := body }] ∧
      parseJSON body =
        some (.object [("name", .string (textOf name)),
                       ("scopes", .array (definedScopes.map .string))]) ∧
      (∀ s : String, name = utf8 s → textOf name = s) ∧
      body.toList = "\x7b\"name\":".toList ++ appendString name ++
        scopesPart (definedScopes.map utf8) := by
  refine ⟨requestBody name, ?_, parseJSON_requestBody name, ?_, rfl⟩
  · rcases main_cases (prog :: name :: extra) env API errText with
      ⟨_, _, h0 | h0⟩ | ⟨_, _, hreq, _⟩
    · simp [positional] at h0
    · exact absurd h0 henv
    · rw [hreq]; rfl
  · intro s hs
    rw [hs]
    exact textOf_utf8 s

theorem request_names_key_and_all_scopes_witness :
    ∃ body : String,
      (main [utf8 "create-sendgrid-key", utf8 "say \"hi\" <now>\n", utf8 "ignored"]
          credentialSet (sampleAPI 201 bodyEmptyObject) sampleErrText).requests =
        [{ key := Getenv credentialSet "SENDGRID_API_KEY",
           endpoint := "/v3/api_keys", host := "https://api.sendgrid.com", Method := "POST",
           Body := body }] ∧
      parseJSON body =
        some (.object [("name", .string (textOf (utf8 "say \"hi\" <now>\n"))),
                       ("scopes", .array (definedScopes.map .string))]) ∧
      (∀ s : String, utf8 "say \"hi\" <now>\n" = utf8 s →
        textOf (utf8 "say \"hi\" <now>\n") = s) ∧
      body.toList = "\x7b\"name\":".toList ++ appendString (utf8 "say \"hi\" <now>\n") ++
        scopesPart (definedScopes.map utf8) :=
  request_names_key_and_all_scopes (utf8 "create-sendgrid-key") (utf8 "say \"hi\" <now>\n")
    [utf8 "ignored"] credentialSet (sampleAPI 201 bodyEmptyObject) sampleErrText (by decide)

end CreateSendgridKey
